import Mathlib

set_option maxHeartbeats 1000000

/- Shallow embedding of the FuzzyDate core of django-fuzzy-dates
   (src/fuzzy_dates/fuzzy_dates.py).

   A component value reaching the validation part of FuzzyDate.__new__
   (lines 127-204) is a Python value that is None, a str, or an int;
   these are modelled by `Comp`.  Only ASCII digits and ASCII whitespace
   are modelled for the regular expressions, str.strip and int(); the
   claims under study only involve ASCII data. -/

inductive Comp where
  | pyNone : Comp
  | pyStr : String → Comp
  | pyInt : Int → Comp
deriving DecidableEq, Repr

/-- Python truthiness bool(c) for the supported component values. -/
def Comp.truthy : Comp → Bool
  | .pyNone => false
  | .pyStr s => if s = "" then false else true
  | .pyInt n => if n = 0 then false else true

/-- Membership of a component in the Python set containing None and the
empty string, as tested at lines 127, 169 and 175 of the source.
Note an int (even 0) is never an element of that set. -/
def Comp.isAbsent : Comp → Bool
  | .pyNone => true
  | .pyStr s => if s = "" then true else false
  | .pyInt _ => false

/-- The characters recognised by the Python regex class backslash-d and by
int(), restricted to ASCII. -/
def charDigit (c : Char) : Option Nat :=
  if c = '0' then some 0 else if c = '1' then some 1 else if c = '2' then some 2
  else if c = '3' then some 3 else if c = '4' then some 4 else if c = '5' then some 5
  else if c = '6' then some 6 else if c = '7' then some 7 else if c = '8' then some 8
  else if c = '9' then some 9 else none

def isDigitC (c : Char) : Bool := (charDigit c).isSome

def digitChar (d : Nat) : Char :=
  if d = 0 then '0' else if d = 1 then '1' else if d = 2 then '2' else if d = 3 then '3'
  else if d = 4 then '4' else if d = 5 then '5' else if d = 6 then '6' else if d = 7 then '7'
  else if d = 8 then '8' else '9'

/-- Decimal digit list of a natural number, most significant first
(fuel-indexed so that it reduces definitionally). -/
def natDigitsAux : Nat → Nat → List Nat
  | 0, _ => []
  | f + 1, n => if n < 10 then [n] else natDigitsAux f (n / 10) ++ [n % 10]

def natDigits (n : Nat) : List Nat := natDigitsAux (n + 1) n

/-- The decimal numeral of a natural number, as produced by Python str()
and by format without padding. -/
def natRepr (n : Nat) : String := String.mk ((natDigits n).map digitChar)

def padZeros (w : Nat) (s : String) : String :=
  String.mk (List.replicate (w - s.length) '0') ++ s

/-- Python zero-padded integer formatting to width w (format spec 0wd):
the sign comes first and counts toward the width. -/
def formatPad (w : Nat) (n : Int) : String :=
  if n < 0 then "-" ++ padZeros (w - 1) (natRepr n.natAbs) else padZeros w (natRepr n.toNat)

/-- Python str() of an int. -/
def pyStrOfInt (n : Int) : String :=
  if n < 0 then "-" ++ natRepr n.natAbs else natRepr n.toNat

/-- ASCII whitespace, as stripped by str.strip() and matched by the regex
class backslash-s. -/
def isSpaceC (c : Char) : Bool :=
  decide (c = ' ' ∨ c = '\t' ∨ c = '\n' ∨ c = '\r' ∨ c = '\x0B' ∨ c = '\x0C')

/-- str.strip(): remove leading and trailing whitespace. -/
def pyStripL (l : List Char) : List Char :=
  ((l.dropWhile isSpaceC).reverse.dropWhile isSpaceC).reverse

def parseDigitsAux : Option Nat → List Char → Option Nat
  | acc, [] => acc
  | acc, c :: r => parseDigitsAux (acc.bind fun a => (charDigit c).map fun d => 10 * a + d) r

/-- Value of a nonempty all-digit character list. -/
def parseDigits (l : List Char) : Option Nat :=
  match l with
  | [] => none
  | _ => parseDigitsAux (some 0) l

/-- Python int(s) for a str argument: optional surrounding whitespace, an
optional sign, then one or more digits (digit-group underscores are not
modelled).  Returns none when int() would raise ValueError. -/
def pyIntStr (s : String) : Option Int :=
  match pyStripL s.data with
  | [] => none
  | c :: r =>
    if c = '-' then (parseDigits r).map fun n => -(n : Int)
    else if c = '+' then (parseDigits r).map fun n => (n : Int)
    else (parseDigits (c :: r)).map fun n => (n : Int)

/-- Python int(c) applied to a component value; none models the raising
of ValueError (str) or TypeError (None). -/
def pyIntOf : Comp → Option Int
  | .pyNone => none
  | .pyStr s => pyIntStr s
  | .pyInt n => some n

/-- Gregorian leap year, as in calendar.isleap / datetime. -/
def isLeap (y : Int) : Bool := decide (y % 4 = 0 ∧ (¬ y % 100 = 0 ∨ y % 400 = 0))

/-- Length of a month, as in calendar.monthrange / datetime. -/
def daysInMonth (y m : Int) : Int :=
  if m = 2 then (if isLeap y then 29 else 28)
  else if m = 4 ∨ m = 6 ∨ m = 9 ∨ m = 11 then 30 else 31

/-- Validity of a proleptic Gregorian date as checked by datetime.date
(year 1 to 9999). -/
def isValidDate (y m d : Int) : Bool :=
  decide (1 ≤ y ∧ y ≤ 9999 ∧ 1 ≤ m ∧ m ≤ 12 ∧ 1 ≤ d ∧ d ≤ daysInMonth y m)

def isAlphaC (c : Char) : Bool :=
  decide (('A' ≤ c ∧ c ≤ 'Z') ∨ ('a' ≤ c ∧ c ≤ 'z'))

def isTzC (c : Char) : Bool :=
  decide (('A' ≤ c ∧ c ≤ 'Z') ∨ ('a' ≤ c ∧ c ≤ 'z') ∨ c = '_')

/-- TZ_PATTERN.match(s) (line 43 and line 192): one or more ASCII letters,
a slash, one or more letters or underscores.  re.match anchors only at the
start, so this is a PREFIX match: trailing characters are not rejected. -/
def tzMatch (s : String) : Bool :=
  let p := s.data.span isAlphaC
  !p.1.isEmpty &&
    (match p.2 with
     | '/' :: r2 => !(r2.takeWhile isTzC).isEmpty
     | _ => false)

/-- A FuzzyDate instance: the str content (base) plus the six attributes
set at lines 198-203.  Attributes keep the Python values assigned there,
which may be None, a str, or (never on the paths present in the source,
but representable) an int. -/
structure FuzzyDate where
  base : String
  year : Comp
  month : Comp
  day : Comp
  hour : Comp
  minute : Comp
  tz : Comp
deriving DecidableEq, Repr

inductive FDError where
  | malformedInput | typeMismatch | conflictingArgs
  | yearMissing | yearNotInt | dayWithoutMonth | monthDayNotInt
  | yearOutOfRange | invalidCalendarDate
  | timeWithoutFullDate | incompleteTimeBlock
  | hourNotInt | hourOutOfRange | minuteNotInt | minuteOutOfRange
  | invalidTimezone | badDatetimeTz
  | notAnInteger | illegalMonth | conversionFailure
deriving DecidableEq, Repr

/-- The error taxonomy of the specification (section 7). -/
inductive ErrKind where
  | conflictingArguments | malformedInput | incompleteComponents | outOfRange
  | invalidCalendarDate | invalidTimezone | typeMismatch | other
deriving DecidableEq, Repr

/-- Mapping of each raise site to the specification's error kind. -/
def FDError.kind : FDError → ErrKind
  | .malformedInput => .malformedInput
  | .typeMismatch => .typeMismatch
  | .conflictingArgs => .conflictingArguments
  | .yearMissing => .incompleteComponents
  | .dayWithoutMonth => .incompleteComponents
  | .timeWithoutFullDate => .incompleteComponents
  | .incompleteTimeBlock => .incompleteComponents
  | .yearOutOfRange => .outOfRange
  | .hourOutOfRange => .outOfRange
  | .minuteOutOfRange => .outOfRange
  | .invalidCalendarDate => .invalidCalendarDate
  | .invalidTimezone => .invalidTimezone
  | .badDatetimeTz => .invalidTimezone
  | _ => .other

/-- Lines 140-144 and 150-152 of the source: the month/day coercion
(the string "00" for absent or the literal "00", otherwise the
zero-padded int) paired with the integer used by the calendar check,
where 1 is substituted for the "00" placeholder.  The source re-derives
the integer by int() on the just-formatted string, which gives back the
same integer. -/
def coerceMD (c : Comp) : Option (String × Int) :=
  if c = .pyNone ∨ c = .pyStr "" ∨ c = .pyStr "00" then some ("00", 1)
  else
    match pyIntOf c with
    | some n =>
      let s := formatPad 2 n
      some (s, if s = "00" then 1 else n)
    | none => none

/-- Lines 127-204 of FuzzyDate.__new__: validation and construction from
normalized component values.  Every construction path funnels into this.
The source formats the year before the day-without-month check, re-parses
the formatted year for the range check (giving back the same integer) and
raises ValueError at each error site; distinct error constructors mark the
distinct sites. -/
def validate (year month day hour minute tz : Comp) : Except FDError FuzzyDate :=
  if year.isAbsent && month.isAbsent && day.isAbsent && hour.isAbsent && minute.isAbsent && tz.isAbsent then
    .ok ⟨"", year, month, day, hour, minute, tz⟩
  else if !year.truthy then .error .yearMissing
  else
    match pyIntOf year with
    | none => .error .yearNotInt
    | some yi =>
      let yearS := formatPad 4 yi
      if day.truthy && !month.truthy then .error .dayWithoutMonth
      else
        match coerceMD month, coerceMD day with
        | some (monthS, mi), some (dayS, di) =>
          if yi < 1000 || 9999 < yi then .error .yearOutOfRange
          else if !isValidDate yi mi di then .error .invalidCalendarDate
          else
            let base0 := yearS ++ "." ++ monthS ++ "." ++ dayS
            if hour.isAbsent && minute.isAbsent && tz.isAbsent then
              .ok ⟨base0, .pyStr yearS, .pyStr (if monthS = "00" then "" else monthS),
                   .pyStr (if dayS = "00" then "" else dayS), hour, minute, tz⟩
            else if dayS = "00" then .error .timeWithoutFullDate
            else if hour.isAbsent || minute.isAbsent || tz.isAbsent then .error .incompleteTimeBlock
            else
              match pyIntOf hour with
              | none => .error .hourNotInt
              | some h =>
                if !(decide (0 ≤ h) && decide (h < 24)) then .error .hourOutOfRange
                else
                  match pyIntOf minute with
                  | none => .error .minuteNotInt
                  | some mn =>
                    if !(decide (0 ≤ mn) && decide (mn < 60)) then .error .minuteOutOfRange
                    else
                      match tz with
                      | .pyStr z =>
                        if tzMatch z then
                          .ok ⟨base0 ++ " " ++ formatPad 2 h ++ ":" ++ formatPad 2 mn ++ " " ++ z,
                               .pyStr yearS, .pyStr (if monthS = "00" then "" else monthS),
                               .pyStr (if dayS = "00" then "" else dayS),
                               .pyStr (formatPad 2 h), .pyStr (formatPad 2 mn), .pyStr z⟩
                        else .error .invalidTimezone
                      | _ => .error .typeMismatch
        | _, _ => .error .monthDayNotInt

/-- The kwargs normalisation at lines 111-119: None becomes the empty
string; other values pass through. -/
def pyNorm (c : Comp) : Comp := if c = .pyNone then .pyStr "" else c

/-- Construction from explicit named components (the kwargs path). -/
def fromKwargs (y m d hour minute tz : Comp) : Except FDError FuzzyDate :=
  validate (pyNorm y) (pyNorm m) (pyNorm d) (pyNorm hour) (pyNorm minute) (pyNorm tz)

/-- The groups of a DATE_PATTERN full match (m.groups() at line 106):
absent groups are None. -/
structure DateGroups where
  year : String
  month : Option String
  day : Option String
  hour : Option String
  minute : Option String
  tzs : Option String
deriving DecidableEq, Repr

def isSepC (c : Char) : Bool := decide (c = '.' ∨ c = '-' ∨ c = '/')

/-- The optional time block of DATE_PATTERN: one or more spaces, two
digits, a colon, two digits, one or more spaces, letters/underscores, a
slash, letters/underscores, anchored at the end.  The regex is
deterministic here (fixed-width digit groups, greedy character classes
that cannot shrink), so a committed parse is faithful. -/
def parseTime (l : List Char) : Option (String × String × String) :=
  let sp := l.span isSpaceC
  if sp.1.isEmpty then none
  else
    match sp.2 with
    | h1 :: h2 :: ':' :: n1 :: n2 :: r =>
      if isDigitC h1 && isDigitC h2 && isDigitC n1 && isDigitC n2 then
        let sp2 := r.span isSpaceC
        if sp2.1.isEmpty then none
        else
          let a := sp2.2.span isTzC
          if a.1.isEmpty then none
          else
            match a.2 with
            | '/' :: r2 =>
              let b := r2.span isTzC
              if b.1.isEmpty || !b.2.isEmpty then none
              else some (String.mk [h1, h2], String.mk [n1, n2], String.mk (a.1 ++ '/' :: b.1))
            | _ => none
      else none
    | _ => none

/-- DATE_PATTERN.fullmatch (lines 17-22): four digits, then a separator
and two digits (month), then optionally a separator and two digits (day),
then optionally the time block; anchored on both sides.  Contrary to the
comment above the pattern in the source, the month group carries no
trailing question mark, so a bare four-digit year does NOT match.
Skipping an optional group succeeds only when the input ends there, so a
committed parse is faithful to the backtracking regex. -/
def parseDate (l : List Char) : Option DateGroups :=
  match l with
  | y1 :: y2 :: y3 :: y4 :: r =>
    if isDigitC y1 && isDigitC y2 && isDigitC y3 && isDigitC y4 then
      let ys := String.mk [y1, y2, y3, y4]
      match r with
      | s1 :: m1 :: m2 :: r2 =>
        if isSepC s1 && isDigitC m1 && isDigitC m2 then
          let ms := String.mk [m1, m2]
          match r2 with
          | [] => some ⟨ys, some ms, none, none, none, none⟩
          | s2 :: d1 :: d2 :: r3 =>
            if isSepC s2 && isDigitC d1 && isDigitC d2 then
              let ds := String.mk [d1, d2]
              if r3.isEmpty then some ⟨ys, some ms, some ds, none, none, none⟩
              else
                match parseTime r3 with
                | some (hs, ns, zs) => some ⟨ys, some ms, some ds, some hs, some ns, some zs⟩
                | none => none
            else none
          | _ => none
        else none
      | _ => none
    else none
  | _ => none

def optComp (o : Option String) : Comp := o.elim .pyNone .pyStr

/-- Construction from a string (lines 102-106): strip, full-match against
DATE_PATTERN, then validate the groups. -/
def fromText (s : String) : Except FDError FuzzyDate :=
  match parseDate (pyStripL s.data) with
  | none => .error .malformedInput
  | some g =>
    validate (.pyStr g.year) (optComp g.month) (optComp g.day)
      (optComp g.hour) (optComp g.minute) (optComp g.tzs)

/-- The tzinfo of a Python datetime as far as lines 83-88 inspect it:
absent (None), the UTC singleton, a zoneinfo with a key, or a tzinfo
without a key attribute. -/
inductive PyTZInfo where
  | utc : PyTZInfo
  | named : String → PyTZInfo
  | unnamed : PyTZInfo
deriving DecidableEq, Repr

structure PyDatetime where
  year : Int
  month : Int
  day : Int
  hour : Int
  minute : Int
  tzinfo : Option PyTZInfo
deriving DecidableEq, Repr

/-- Lines 83-88: resolve the zone key of a datetime seed. -/
def dtKey : Option PyTZInfo → Except FDError String
  | none => .ok "Etc/UTC"
  | some .utc => .ok "Etc/UTC"
  | some .unnamed => .error .badDatetimeTz
  | some (.named k) => .ok k

/-- Construction from a datetime seed (lines 82-95). -/
def fromDatetime (dt : PyDatetime) : Except FDError FuzzyDate :=
  match dtKey dt.tzinfo with
  | .error e => .error e
  | .ok k =>
    validate (.pyInt dt.year) (.pyInt dt.month) (.pyInt dt.day)
      (.pyInt dt.hour) (.pyInt dt.minute) (.pyStr k)

/-- Construction from a plain date seed (lines 97-100): time components
keep their initial empty-string values. -/
def fromPyDate (y m d : Int) : Except FDError FuzzyDate :=
  validate (.pyInt y) (.pyInt m) (.pyInt d) (.pyStr "") (.pyStr "") (.pyStr "")

/-- Copy construction (lines 74-80). -/
def fromCopy (f : FuzzyDate) : Except FDError FuzzyDate :=
  validate f.year f.month f.day f.hour f.minute f.tz

/-- The value of FuzzyDate() with no arguments: every variable keeps its
initial empty-string value and validation is skipped. -/
def emptyFD : FuzzyDate :=
  ⟨"", .pyStr "", .pyStr "", .pyStr "", .pyStr "", .pyStr "", .pyStr ""⟩

/-- is_fuzzy (lines 260-262): Python's self.day == "" is true exactly when
the attribute is the empty string (None compares unequal). -/
def FuzzyDate.is_fuzzy (f : FuzzyDate) : Bool := f.day = .pyStr ""

structure PyDate where
  y : Int
  m : Int
  d : Int
deriving DecidableEq, Repr

/-- to_date (lines 264-278): None for fuzzy values, otherwise the date
built by int() on the three attributes; any exception is re-raised as a
ValueError, modelled by conversionFailure. -/
def FuzzyDate.to_date (f : FuzzyDate) : Except FDError (Option PyDate) :=
  if f.is_fuzzy then .ok none
  else
    match pyIntOf f.year, pyIntOf f.month, pyIntOf f.day with
    | some y, some m, some d =>
      if isValidDate y m d then .ok (some ⟨y, m, d⟩) else .error .conversionFailure
    | _, _, _ => .error .conversionFailure

/-- get_range (lines 239-249).  Python's x or y on the string attributes
picks y exactly when x is falsy; the end day falls back to
str(calendar.monthrange(int(year), int(month))[1]), evaluated before
either bound is constructed, and monthrange raises on a month outside
1..12; int(None) raising TypeError and int("") raising ValueError are
distinguished.  The two bounds are built by the kwargs path. -/
def FuzzyDate.get_range (f : FuzzyDate) : Except FDError (FuzzyDate × FuzzyDate) :=
  let startMonth := if f.month.truthy then f.month else .pyStr "01"
  let startDay := if f.day.truthy then f.day else .pyStr "01"
  let endMonth := if f.month.truthy then f.month else .pyStr "12"
  let endDayE : Except FDError Comp :=
    if f.day.truthy then .ok f.day
    else
      match f.year with
      | .pyNone => .error .typeMismatch
      | yc =>
        match pyIntOf yc with
        | none => .error .notAnInteger
        | some yv =>
          match pyIntOf endMonth with
          | none => .error (match endMonth with | .pyNone => .typeMismatch | _ => .notAnInteger)
          | some mv =>
            if decide (1 ≤ mv) && decide (mv ≤ 12) then
              .ok (.pyStr (pyStrOfInt (daysInMonth yv mv)))
            else .error .illegalMonth
  match endDayE with
  | .error e => .error e
  | .ok endDay =>
    match fromKwargs f.year startMonth startDay (.pyStr "") (.pyStr "") (.pyStr "") with
    | .error e => .error e
    | .ok s =>
      match fromKwargs f.year endMonth endDay (.pyStr "") (.pyStr "") (.pyStr "") with
      | .error e => .error e
      | .ok e2 => .ok (s, e2)

def FuzzyDate.has_time (f : FuzzyDate) : Bool :=
  !f.hour.isAbsent && !f.minute.isAbsent

def FuzzyDate.has_timezone (f : FuzzyDate) : Bool := f.tz.truthy

def exceptIsOk {ε α : Type} : Except ε α → Bool
  | .ok _ => true
  | .error _ => false

/- ------------------------------------------------------------------ -/
/- Numeral round-trip lemmas                                           -/
/- ------------------------------------------------------------------ -/

theorem charDigit_digitChar : ∀ d : Nat, d < 10 → charDigit (digitChar d) = some d := by decide

theorem digitChar_isDigit : ∀ d : Nat, d < 10 → isDigitC (digitChar d) = true := by decide

theorem digitChar_not_space : ∀ d : Nat, d < 10 → isSpaceC (digitChar d) = false := by decide

theorem digitChar_not_sign : ∀ d : Nat, d < 10 → digitChar d ≠ '-' ∧ digitChar d ≠ '+' := by decide

theorem parseDigitsAux_digits (l : List Nat) :
    ∀ a : Nat, (∀ d ∈ l, d < 10) →
      parseDigitsAux (some a) (l.map digitChar) = some (l.foldl (fun x d => 10 * x + d) a) := by
  induction l with
  | nil => intro a _; rfl
  | cons d t ih =>
    intro a hmem
    have hd : d < 10 := hmem d (by simp)
    simp only [List.map_cons, parseDigitsAux, Option.bind, charDigit_digitChar d hd,
      Option.map_some', List.foldl_cons]
    exact ih (10 * a + d) (fun x hx => hmem x (by simp [hx]))

theorem natDigitsAux_spec : ∀ f n : Nat, n < f →
    natDigitsAux f n ≠ [] ∧
    (∀ d ∈ natDigitsAux f n, d < 10) ∧
    (natDigitsAux f n).foldl (fun x d => 10 * x + d) 0 = n ∧
    ((natDigitsAux f n).length = 1 ∨ 10 ^ ((natDigitsAux f n).length - 1) ≤ n) := by
  intro f
  induction f with
  | zero => intro n hn; omega
  | succ g ih =>
    intro n hn
    by_cases hsmall : n < 10
    · refine ⟨by simp [natDigitsAux, hsmall], ?_, ?_, ?_⟩
      · simp [natDigitsAux, hsmall]
      · simp [natDigitsAux, hsmall]
      · simp [natDigitsAux, hsmall]
    · have hdivlt : n / 10 < g := by
        have h1 : n / 10 < n := Nat.div_lt_self (by omega) (by omega)
        omega
      obtain ⟨hne, hmem, hval, hlen⟩ := ih (n / 10) hdivlt
      have heq : natDigitsAux (g + 1) n = natDigitsAux g (n / 10) ++ [n % 10] := by
        simp [natDigitsAux, hsmall]
      refine ⟨by simp [heq], ?_, ?_, ?_⟩
      · intro d hd
        rw [heq] at hd
        rcases List.mem_append.mp hd with h | h
        · exact hmem d h
        · simp at h; omega
      · rw [heq, List.foldl_append, hval]
        simp
        omega
      · rw [heq]
        right
        have hlen1 : 1 ≤ (natDigitsAux g (n / 10)).length := by
          cases h : natDigitsAux g (n / 10) with
          | nil => exact absurd h hne
          | cons x xs => simp
        have hgoal : (natDigitsAux g (n / 10) ++ [n % 10]).length - 1
            = (natDigitsAux g (n / 10)).length := by
          simp
        rw [hgoal]
        rcases hlen with h1 | h1
        · rw [h1]; omega
        · set L := (natDigitsAux g (n / 10)).length with hL
          have h2 : 10 ^ L = 10 ^ (L - 1) * 10 := by
            conv_lhs => rw [show L = (L - 1) + 1 by omega]
            rw [pow_succ]
          have h3 : 10 ^ (L - 1) * 10 ≤ (n / 10) * 10 :=
            Nat.mul_le_mul_right 10 h1
          have h4 : (n / 10) * 10 ≤ n := Nat.div_mul_le_self n 10
          omega

theorem natDigits_spec (n : Nat) :
    natDigits n ≠ [] ∧
    (∀ d ∈ natDigits n, d < 10) ∧
    (natDigits n).foldl (fun x d => 10 * x + d) 0 = n ∧
    ((natDigits n).length = 1 ∨ 10 ^ ((natDigits n).length - 1) ≤ n) :=
  natDigitsAux_spec (n + 1) n (Nat.lt_succ_self n)

theorem natDigits_len_le (n k : Nat) (hk : 1 ≤ k) (hn : n < 10 ^ k) :
    (natDigits n).length ≤ k := by
  obtain ⟨-, -, -, hlen⟩ := natDigits_spec n
  rcases hlen with h | h
  · omega
  · by_contra hcon
    have h1 : k ≤ (natDigits n).length - 1 := by omega
    have h2 : (10 : Nat) ^ k ≤ 10 ^ ((natDigits n).length - 1) :=
      Nat.pow_le_pow_right (by omega) h1
    omega

theorem foldl_zeros : ∀ k : Nat, (List.replicate k 0).foldl (fun x d => 10 * x + d) 0 = 0 := by
  intro k
  induction k with
  | zero => rfl
  | succ j ih => simpa [List.replicate_succ] using ih

theorem parseDigits_zeros_digits (k : Nat) (l : List Nat)
    (hmem : ∀ d ∈ l, d < 10) (hne : l ≠ []) :
    parseDigits (List.replicate k '0' ++ l.map digitChar)
      = some (l.foldl (fun x d => 10 * x + d) 0) := by
  have hrepl : List.replicate k '0' = (List.replicate k (0 : Nat)).map digitChar := by
    rw [List.map_replicate]; rfl
  have hall : ∀ d ∈ List.replicate k (0 : Nat) ++ l, d < 10 := by
    intro d hd
    rcases List.mem_append.mp hd with h | h
    · have := List.eq_of_mem_replicate h
      omega
    · exact hmem d h
  have hcomb : List.replicate k '0' ++ l.map digitChar
      = (List.replicate k (0 : Nat) ++ l).map digitChar := by
    rw [hrepl, List.map_append]
  rw [hcomb]
  have hfold : (List.replicate k (0 : Nat) ++ l).foldl (fun x d => 10 * x + d) 0
      = l.foldl (fun x d => 10 * x + d) 0 := by
    rw [List.foldl_append, foldl_zeros]
  cases hl : (List.replicate k (0 : Nat) ++ l) with
  | nil =>
    rcases List.append_eq_nil.mp hl with ⟨-, h2⟩
    exact absurd h2 hne
  | cons c t =>
    have := parseDigitsAux_digits (c :: t) 0 (by rw [← hl]; exact hall)
    rw [← hl] at this
    rw [hfold] at this
    simpa [parseDigits, hl] using this

theorem dropWhile_all_false {p : Char → Bool} :
    ∀ l : List Char, (∀ c ∈ l, p c = false) → l.dropWhile p = l := by
  intro l h
  cases l with
  | nil => rfl
  | cons c t =>
    rw [List.dropWhile_cons, h c (by simp)]
    simp

theorem pyStripL_id (l : List Char) (h : ∀ c ∈ l, isSpaceC c = false) : pyStripL l = l := by
  unfold pyStripL
  rw [dropWhile_all_false l h]
  rw [dropWhile_all_false l.reverse (fun c hc => h c (List.mem_reverse.mp hc))]
  exact List.reverse_reverse l

theorem isDigit_not_sign (c : Char) (hc : isDigitC c = true) : c ≠ '-' ∧ c ≠ '+' := by
  constructor <;> rintro rfl <;> simp [isDigitC, charDigit] at hc

theorem isDigit_not_space (c : Char) (hc : isDigitC c = true) : isSpaceC c = false := by
  by_contra h
  have h2 : isSpaceC c = true := by
    cases h3 : isSpaceC c with
    | false => exact absurd h3 h
    | true => rfl
  have : c = ' ' ∨ c = '\t' ∨ c = '\n' ∨ c = '\r' ∨ c = '\x0B' ∨ c = '\x0C' :=
    of_decide_eq_true h2
  rcases this with rfl | rfl | rfl | rfl | rfl | rfl <;> simp [isDigitC, charDigit] at hc

theorem pyIntStr_of_digits (s : String)
    (hne : s.data ≠ [])
    (hdig : ∀ c ∈ s.data, isDigitC c = true) :
    pyIntStr s = (parseDigits s.data).map fun n => (n : Int) := by
  unfold pyIntStr
  rw [pyStripL_id s.data (fun c hc => isDigit_not_space c (hdig c hc))]
  cases hl : s.data with
  | nil => exact absurd hl hne
  | cons c t =>
    have hc : isDigitC c = true := by
      apply hdig
      rw [hl]; simp
    obtain ⟨h1, h2⟩ := isDigit_not_sign c hc
    simp [h1, h2]

theorem padZeros_natRepr_data (w n : Nat) :
    (padZeros w (natRepr n)).data
      = List.replicate (w - (natRepr n).length) '0' ++ (natDigits n).map digitChar := by
  simp [padZeros, natRepr, String.data_append]

theorem mem_padZeros_digit (w n : Nat) :
    ∀ c ∈ (padZeros w (natRepr n)).data, isDigitC c = true := by
  intro c hc
  rw [padZeros_natRepr_data] at hc
  rcases List.mem_append.mp hc with h | h
  · rw [List.eq_of_mem_replicate h]; decide
  · obtain ⟨d, hd, rfl⟩ := List.mem_map.mp h
    exact digitChar_isDigit d ((natDigits_spec n).2.1 d hd)

theorem padZeros_natRepr_ne (w n : Nat) : (padZeros w (natRepr n)).data ≠ [] := by
  rw [padZeros_natRepr_data]
  intro h
  rcases List.append_eq_nil.mp h with ⟨-, h2⟩
  exact (natDigits_spec n).1 (List.map_eq_nil.mp h2)

theorem pyIntStr_padZeros (w n : Nat) :
    pyIntStr (padZeros w (natRepr n)) = some (n : Int) := by
  rw [pyIntStr_of_digits _ (padZeros_natRepr_ne w n) (mem_padZeros_digit w n)]
  rw [padZeros_natRepr_data]
  rw [parseDigits_zeros_digits _ _ (natDigits_spec n).2.1 (natDigits_spec n).1]
  rw [(natDigits_spec n).2.2.1]
  rfl

theorem pyIntStr_formatPad (w : Nat) (n : Int) : pyIntStr (formatPad w n) = some n := by
  by_cases hn : n < 0
  · have hdata : (formatPad w n).data = '-' :: (padZeros (w - 1) (natRepr n.natAbs)).data := by
      unfold formatPad
      rw [if_pos hn, String.data_append]
      rfl
    have hstep : pyIntStr (formatPad w n)
        = (parseDigits (padZeros (w - 1) (natRepr n.natAbs)).data).map fun k => -(k : Int) := by
      unfold pyIntStr
      rw [hdata, pyStripL_id]
      · rfl
      · intro c hc
        rcases List.mem_cons.mp hc with rfl | h
        · decide
        · exact isDigit_not_space c (mem_padZeros_digit _ _ c h)
    rw [hstep, padZeros_natRepr_data,
      parseDigits_zeros_digits _ _ (natDigits_spec _).2.1 (natDigits_spec _).1,
      (natDigits_spec _).2.2.1]
    have hcast : -((n.natAbs : Nat) : Int) = n := by omega
    simp [hcast]
    rw [abs_of_neg hn, neg_neg]
  · have heq : formatPad w n = padZeros w (natRepr n.toNat) := by
      unfold formatPad
      rw [if_neg hn]
    rw [heq, pyIntStr_padZeros]
    congr 1
    omega

theorem pyIntOf_formatPad (w : Nat) (n : Int) : pyIntOf (.pyStr (formatPad w n)) = some n :=
  pyIntStr_formatPad w n

theorem formatPad_ne_empty (w : Nat) (n : Int) : formatPad w n ≠ "" := by
  intro h
  have h2 := pyIntStr_formatPad w n
  rw [h, show pyIntStr "" = none from rfl] at h2
  cases h2

theorem formatPad_inj {w : Nat} {a b : Int} (h : formatPad w a = formatPad w b) : a = b := by
  have h2 := pyIntStr_formatPad w a
  rw [h, pyIntStr_formatPad] at h2
  exact (Option.some.inj h2).symm

theorem formatPad_two_eq_00_iff (n : Int) : formatPad 2 n = "00" ↔ n = 0 := by
  constructor
  · intro h
    have h2 := pyIntStr_formatPad 2 n
    rw [h, show pyIntStr "00" = some 0 from rfl] at h2
    exact (Option.some.inj h2).symm
  · rintro rfl; rfl

theorem natRepr_length (n : Nat) : (natRepr n).length = (natDigits n).length := by
  simp [natRepr, String.length]

theorem formatPad_shape (w : Nat) (n : Int) (h0 : 0 ≤ n) (hw : 1 ≤ w)
    (hlt : n.toNat < 10 ^ w) :
    (formatPad w n).data.length = w ∧ ∀ c ∈ (formatPad w n).data, isDigitC c = true := by
  have hfp : formatPad w n = padZeros w (natRepr n.toNat) := by
    unfold formatPad
    rw [if_neg (by omega)]
  have hlen_le : (natDigits n.toNat).length ≤ w := natDigits_len_le n.toNat w hw hlt
  constructor
  · rw [hfp, padZeros_natRepr_data]
    simp only [List.length_append, List.length_replicate, List.length_map]
    rw [natRepr_length]
    omega
  · rw [hfp]
    exact mem_padZeros_digit w n.toNat

theorem exists_pair (l : List Char) (h : l.length = 2) : ∃ a b, l = [a, b] := by
  match l, h with
  | [a, b], _ => exact ⟨a, b, rfl⟩

theorem exists_quad (l : List Char) (h : l.length = 4) : ∃ a b c d, l = [a, b, c, d] := by
  match l, h with
  | [a, b, c, d], _ => exact ⟨a, b, c, d, rfl⟩

theorem truthy_not_absent {c : Comp} (h : c.truthy = true) : c.isAbsent = false := by
  cases c with
  | pyNone => simp [Comp.truthy] at h
  | pyStr s =>
    simp only [Comp.truthy] at h
    simp only [Comp.isAbsent]
    split at h
    · exact absurd h (by simp)
    · simp_all
  | pyInt n => rfl

theorem absent_not_truthy {c : Comp} (h : c.isAbsent = true) : c.truthy = false := by
  cases c with
  | pyNone => rfl
  | pyStr s =>
    simp only [Comp.isAbsent] at h
    simp only [Comp.truthy]
    split at h
    · simp_all
    · exact absurd h (by simp)
  | pyInt n => simp [Comp.isAbsent] at h

/- ------------------------------------------------------------------ -/
/- Lexicographic order lemmas (Python string comparison)               -/
/- ------------------------------------------------------------------ -/

theorem listLt_append (p : List Char) {a b : List Char} (h : a < b) : p ++ a < p ++ b := by
  induction p with
  | nil => exact h
  | cons c t ih =>
    show (c :: (t ++ a)) < (c :: (t ++ b))
    exact List.Lex.cons ih

theorem listLt_strip (p : List Char) {a b : List Char} (h : p ++ a < p ++ b) : a < b := by
  induction p with
  | nil => exact h
  | cons c t ih =>
    have h2 : (c :: (t ++ a)) < (c :: (t ++ b)) := h
    cases h2 with
    | cons h3 => exact ih h3
    | rel hc => exact absurd hc (lt_irrefl c)

theorem strLt_append (p : String) {a b : String} (h : a < b) : p ++ a < p ++ b := by
  rw [String.lt_iff_toList_lt] at h ⊢
  have hd : ∀ s t : String, (s ++ t).toList = s.toList ++ t.toList := by
    intro s t
    exact String.data_append s t
  rw [hd, hd]
  exact listLt_append p.toList h

theorem strLe_append (p : String) {a b : String} (h : a ≤ b) : p ++ a ≤ p ++ b := by
  rw [String.le_iff_toList_le] at h ⊢
  have hd : ∀ s t : String, (s ++ t).toList = s.toList ++ t.toList := by
    intro s t
    exact String.data_append s t
  rw [hd, hd]
  rw [← not_lt] at h ⊢
  intro hlt
  exact h (listLt_strip p.toList hlt)

theorem strLt_extend (s t : String) (h : t ≠ "") : s < s ++ t := by
  rw [String.lt_iff_toList_lt]
  have hd : (s ++ t).toList = s.toList ++ t.toList := String.data_append s t
  rw [hd]
  have hne : t.toList ≠ [] := by
    intro hnil
    apply h
    cases t with
    | mk l =>
      have hl : l = [] := hnil
      subst hl
      rfl
  cases hl : t.toList with
  | nil => exact absurd hl hne
  | cons c r =>
    have hstep : s.toList ++ ([] : List Char) < s.toList ++ (c :: r) :=
      listLt_append s.toList List.Lex.nil
    simpa using hstep

def fmtM (o : Option Int) : String := o.elim "00" (formatPad 2)

def attrM (o : Option Int) : String := o.elim "" (formatPad 2)

def timeSuffix (h mn : Int) (z : String) : String :=
  " " ++ formatPad 2 h ++ ":" ++ formatPad 2 mn ++ " " ++ z

def ymdBase (y : Int) (mo dayo : Option Int) : String :=
  formatPad 4 y ++ "." ++ fmtM mo ++ "." ++ fmtM dayo

theorem attr_of_fmt (mo : Option Int) (h : ∀ m, mo = some m → m ≠ 0) :
    (if fmtM mo = "00" then "" else fmtM mo) = attrM mo := by
  cases mo with
  | none => rfl
  | some m =>
    have hm : m ≠ 0 := h m rfl
    have : fmtM (some m) ≠ "00" := by
      simp only [fmtM, Option.elim]
      intro hc
      exact hm ((formatPad_two_eq_00_iff m).mp hc)
    rw [if_neg this]
    rfl

theorem validate_ok_noTime
    (yc mc dc hc mnc tzc : Comp) (y : Int) (mo dayo : Option Int)
    (hyT : yc.truthy = true)
    (hyI : pyIntOf yc = some y)
    (hmc : coerceMD mc = some (fmtM mo, mo.getD 1))
    (hdc : coerceMD dc = some (fmtM dayo, dayo.getD 1))
    (hdm : (dc.truthy && !mc.truthy) = false)
    (hy1 : 1000 ≤ y) (hy2 : y ≤ 9999)
    (hvalid : isValidDate y (mo.getD 1) (dayo.getD 1) = true)
    (hh : hc.isAbsent = true) (hmn : mnc.isAbsent = true) (htz : tzc.isAbsent = true) :
    validate yc mc dc hc mnc tzc
      = .ok ⟨ymdBase y mo dayo, .pyStr (formatPad 4 y), .pyStr (attrM mo), .pyStr (attrM dayo),
             hc, mnc, tzc⟩ := by
  have hyabs : yc.isAbsent = false := truthy_not_absent hyT
  have hrange : (decide (y < 1000) || decide (9999 < y)) = false := by
    simp
    omega
  have hmonth_ne : ∀ m, mo = some m → m ≠ 0 := by
    intro m hm
    have := of_decide_eq_true hvalid
    rw [hm] at this
    simp only [Option.getD] at this
    omega
  have hday_ne : ∀ d, dayo = some d → d ≠ 0 := by
    intro d hd
    have := of_decide_eq_true hvalid
    rw [hd] at this
    simp only [Option.getD] at this
    omega
  simp only [validate, hyabs, hyT, hyI, hmc, hdc, hdm, hrange, hvalid, hh, hmn, htz, ymdBase,
    Bool.not_true, Bool.and_self, Bool.false_eq_true, if_false, Bool.true_and, Bool.and_true,
    Bool.false_and, Bool.not_false, if_true, Bool.false_or, Bool.or_false]
  rw [attr_of_fmt mo hmonth_ne, attr_of_fmt dayo hday_ne]

theorem validate_ok_time
    (yc mc dc hc mnc : Comp) (z : String) (y : Int) (mo dayo : Option Int) (h mn : Int)
    (hyT : yc.truthy = true)
    (hyI : pyIntOf yc = some y)
    (hmc : coerceMD mc = some (fmtM mo, mo.getD 1))
    (hdc : coerceMD dc = some (fmtM dayo, dayo.getD 1))
    (hdm : (dc.truthy && !mc.truthy) = false)
    (hy1 : 1000 ≤ y) (hy2 : y ≤ 9999)
    (hvalid : isValidDate y (mo.getD 1) (dayo.getD 1) = true)
    (hdayo : dayo.isSome = true)
    (hhA : hc.isAbsent = false) (hhI : pyIntOf hc = some h)
    (hmnA : mnc.isAbsent = false) (hmnI : pyIntOf mnc = some mn)
    (hh1 : 0 ≤ h) (hh2 : h < 24) (hmn1 : 0 ≤ mn) (hmn2 : mn < 60)
    (hzne : z ≠ "")
    (htzm : tzMatch z = true) :
    validate yc mc dc hc mnc (.pyStr z)
      = .ok ⟨ymdBase y mo dayo ++ timeSuffix h mn z,
             .pyStr (formatPad 4 y), .pyStr (attrM mo), .pyStr (attrM dayo),
             .pyStr (formatPad 2 h), .pyStr (formatPad 2 mn), .pyStr z⟩ := by
  have hyabs : yc.isAbsent = false := truthy_not_absent hyT
  have hrange : (decide (y < 1000) || decide (9999 < y)) = false := by
    simp
    omega
  have hmonth_ne : ∀ m, mo = some m → m ≠ 0 := by
    intro m hm
    have hv := of_decide_eq_true hvalid
    rw [hm] at hv
    simp only [Option.getD] at hv
    omega
  have hday_ne : ∀ d, dayo = some d → d ≠ 0 := by
    intro d hd
    have hv := of_decide_eq_true hvalid
    rw [hd] at hv
    simp only [Option.getD] at hv
    omega
  obtain ⟨d, hdayo_eq⟩ := Option.isSome_iff_exists.mp hdayo
  have hds : ¬ (fmtM dayo = "00") := by
    rw [hdayo_eq]
    simp only [fmtM, Option.elim]
    intro hc00
    exact hday_ne d hdayo_eq ((formatPad_two_eq_00_iff d).mp hc00)
  have htzA : (Comp.pyStr z).isAbsent = false := by
    simp [Comp.isAbsent, hzne]
  have hhr : (decide (0 ≤ h) && decide (h < 24)) = true := by simp; omega
  have hmnr : (decide (0 ≤ mn) && decide (mn < 60)) = true := by simp; omega
  simp only [validate, hyabs, hyT, hyI, hmc, hdc, hdm, hrange, hvalid, hhA, hmnA, htzA,
    hds, hhI, hmnI, hhr, hmnr, htzm, ymdBase, timeSuffix,
    Bool.not_true, Bool.and_self, Bool.false_eq_true, if_false, Bool.true_and, Bool.and_true,
    Bool.false_and, Bool.and_false, Bool.not_false, if_true, Bool.false_or, Bool.or_false,
    Bool.or_self, ite_false, ite_true]
  rw [attr_of_fmt mo hmonth_ne]
  subst hdayo_eq
  simp only [fmtM, attrM, Option.elim, String.append_assoc]

theorem coerceMD_absent {c : Comp} (h : c.isAbsent = true) : coerceMD c = some ("00", 1) := by
  cases c with
  | pyNone => rfl
  | pyStr s =>
    have hs : s = "" := by
      simp only [Comp.isAbsent] at h
      split at h
      · assumption
      · exact absurd h (by simp)
    subst hs
    rfl
  | pyInt n => simp [Comp.isAbsent] at h

theorem coerceMD_fmt {m : Int} (hm : m ≠ 0) :
    coerceMD (.pyStr (formatPad 2 m)) = some (formatPad 2 m, m) := by
  unfold coerceMD
  rw [if_neg]
  · rw [show pyIntOf (.pyStr (formatPad 2 m)) = some m from pyIntStr_formatPad 2 m]
    simp only []
    rw [if_neg]
    intro hc
    exact hm ((formatPad_two_eq_00_iff m).mp hc)
  · intro hc
    rcases hc with hc | hc | hc
    · exact Comp.noConfusion hc
    · exact formatPad_ne_empty 2 m (Comp.pyStr.inj hc)
    · exact hm ((formatPad_two_eq_00_iff m).mp (Comp.pyStr.inj hc))

theorem coerceMD_int {m : Int} (hm : m ≠ 0) :
    coerceMD (.pyInt m) = some (formatPad 2 m, m) := by
  unfold coerceMD
  rw [if_neg]
  · simp only [pyIntOf]
    rw [if_neg]
    intro hc
    exact hm ((formatPad_two_eq_00_iff m).mp hc)
  · intro hc
    rcases hc with hc | hc | hc <;> exact Comp.noConfusion hc

theorem coerceMD_canon_fmt (mo : Option Int) (h : ∀ m, mo = some m → m ≠ 0) :
    coerceMD (.pyStr (fmtM mo)) = some (fmtM mo, mo.getD 1) := by
  cases mo with
  | none => rfl
  | some m => exact coerceMD_fmt (h m rfl)

theorem coerceMD_int_canon (m : Int) :
    coerceMD (.pyInt m)
      = some (fmtM (if m = 0 then none else some m), (if m = 0 then none else some m).getD 1) := by
  by_cases hm : m = 0
  · subst hm
    rfl
  · rw [if_neg hm, coerceMD_int hm]
    rfl

theorem coerceMD_spec {c : Comp} {s : String} {i : Int} (h : coerceMD c = some (s, i)) :
    (s = "00" ∧ i = 1) ∨ (s ≠ "00" ∧ ∃ n : Int, n ≠ 0 ∧ s = formatPad 2 n ∧ i = n) := by
  unfold coerceMD at h
  split at h
  · left
    obtain ⟨h1, h2⟩ := Prod.mk.injEq .. ▸ (Option.some.inj h)
    exact ⟨h1.symm, h2.symm⟩
  · cases hpy : pyIntOf c with
    | none => rw [hpy] at h; exact Option.noConfusion h
    | some n =>
      rw [hpy] at h
      simp only [] at h
      obtain ⟨h1, h2⟩ := Prod.mk.injEq .. ▸ (Option.some.inj h)
      by_cases h00 : formatPad 2 n = "00"
      · left
        rw [if_pos h00] at h2
        exact ⟨h00 ▸ h1.symm, h2.symm⟩
      · right
        rw [if_neg h00] at h2
        refine ⟨h1 ▸ h00, n, ?_, h1.symm, h2.symm⟩
        intro hn0
        subst hn0
        exact h00 rfl

/-- Shape invariant of every non-empty validly constructed FuzzyDate:
canonical attribute strings, bounded components, and the canonical base
string.  mo/dayo are the month/day components (none when the attribute is
the empty string), t the time block. -/
def FDInv (f : FuzzyDate) : Prop :=
  ∃ (y : Int) (mo dayo : Option Int) (t : Option (Int × Int × String)),
    1000 ≤ y ∧ y ≤ 9999 ∧
    f.year = .pyStr (formatPad 4 y) ∧
    f.month = .pyStr (attrM mo) ∧
    f.day = .pyStr (attrM dayo) ∧
    (∀ m, mo = some m → 1 ≤ m ∧ m ≤ 12) ∧
    (∀ d, dayo = some d → 1 ≤ d ∧ d ≤ daysInMonth y (mo.getD 1)) ∧
    (t.isSome = true → dayo.isSome = true) ∧
    f.base = ymdBase y mo dayo ++ (t.elim "" fun p => timeSuffix p.1 p.2.1 p.2.2) ∧
    (∀ h mn z, t = some (h, mn, z) →
      0 ≤ h ∧ h < 24 ∧ 0 ≤ mn ∧ mn < 60 ∧ tzMatch z = true ∧ z ≠ "" ∧
      f.hour = .pyStr (formatPad 2 h) ∧ f.minute = .pyStr (formatPad 2 mn) ∧ f.tz = .pyStr z) ∧
    (t = none → f.hour.isAbsent = true ∧ f.minute.isAbsent = true ∧ f.tz.isAbsent = true)


theorem coerceMD_spec2 {c : Comp} {s : String} {i : Int} (h : coerceMD c = some (s, i)) :
    ∃ o : Option Int, s = fmtM o ∧ i = o.getD 1 ∧ (∀ m, o = some m → m ≠ 0) ∧
      (o.isSome = true ↔ s ≠ "00") := by
  rcases coerceMD_spec h with ⟨h00, hi1⟩ | ⟨hne, n, hn0, hs, hin⟩
  · refine ⟨none, by rw [h00]; rfl, by rw [hi1]; rfl, by simp, ?_⟩
    simp [h00]
  · refine ⟨some n, by rw [hs]; rfl, by rw [hin]; rfl, ?_, ?_⟩
    · intro m hm
      rw [Option.some.inj hm] at hn0
      exact hn0
    · simp [hne]


theorem validate_inv {yc mc dc hc mnc tzc : Comp} {f : FuzzyDate}
    (hok : validate yc mc dc hc mnc tzc = .ok f) :
    (f = ⟨"", yc, mc, dc, hc, mnc, tzc⟩ ∧ yc.isAbsent = true ∧ mc.isAbsent = true ∧
      dc.isAbsent = true ∧ hc.isAbsent = true ∧ mnc.isAbsent = true ∧ tzc.isAbsent = true) ∨
    FDInv f := by
  rw [validate.eq_def] at hok
  cases habs : (yc.isAbsent && mc.isAbsent && dc.isAbsent && hc.isAbsent && mnc.isAbsent && tzc.isAbsent) with
  | true =>
    rw [habs, if_pos rfl] at hok
    left
    injection hok with h
    simp only [Bool.and_eq_true] at habs
    exact ⟨h.symm, habs.1.1.1.1.1, habs.1.1.1.1.2, habs.1.1.1.2, habs.1.1.2, habs.1.2, habs.2⟩
  | false =>
  rw [habs, if_neg (by simp)] at hok
  cases hty : yc.truthy with
  | false =>
    rw [hty] at hok
    simp only [Bool.not_false, if_true] at hok
    exact Except.noConfusion hok
  | true =>
  rw [hty] at hok
  simp only [Bool.not_true, Bool.false_eq_true, if_false] at hok
  cases hyI : pyIntOf yc with
  | none =>
    rw [hyI] at hok
    exact Except.noConfusion hok
  | some yi =>
  rw [hyI] at hok
  simp only [] at hok
  cases hdm : (dc.truthy && !mc.truthy) with
  | true =>
    rw [hdm, if_pos rfl] at hok
    exact Except.noConfusion hok
  | false =>
  rw [hdm, if_neg (by simp)] at hok
  cases hmc : coerceMD mc with
  | none =>
    rw [hmc] at hok
    exact Except.noConfusion hok
  | some pm =>
  obtain ⟨monthS, mi⟩ := pm
  rw [hmc] at hok
  cases hdc : coerceMD dc with
  | none =>
    rw [hdc] at hok
    exact Except.noConfusion hok
  | some pd =>
  obtain ⟨dayS, di⟩ := pd
  rw [hdc] at hok
  simp only [] at hok
  cases hrange : (decide (yi < 1000) || decide (9999 < yi)) with
  | true =>
    rw [hrange, if_pos rfl] at hok
    exact Except.noConfusion hok
  | false =>
  rw [hrange, if_neg (by simp)] at hok
  cases hvb : isValidDate yi mi di with
  | false =>
    rw [hvb] at hok
    simp only [Bool.not_false, if_true] at hok
    exact Except.noConfusion hok
  | true =>
  rw [hvb] at hok
  simp only [Bool.not_true, Bool.false_eq_true, if_false] at hok
  right
  have hyr : 1000 ≤ yi ∧ yi ≤ 9999 := by
    have h2 := hrange
    simp only [Bool.or_eq_false_iff, decide_eq_false_iff_not, not_lt] at h2
    omega
  obtain ⟨mo, hms, hmi, hmne, hmiso⟩ := coerceMD_spec2 hmc
  obtain ⟨dayo, hds, hdi, hdne, hdiso⟩ := coerceMD_spec2 hdc
  subst hms hdi hds hmi
  have hvfacts := of_decide_eq_true hvb
  have hmb : ∀ m, mo = some m → 1 ≤ m ∧ m ≤ 12 := by
    intro m hm
    rw [hm] at hvfacts
    simp only [Option.getD] at hvfacts
    omega
  have hdb : ∀ d, dayo = some d → 1 ≤ d ∧ d ≤ daysInMonth yi (mo.getD 1) := by
    intro d hd
    rw [hd] at hvfacts
    simp only [Option.getD] at hvfacts
    exact ⟨by omega, hvfacts.2.2.2.2.2⟩
  cases htabs : (hc.isAbsent && mnc.isAbsent && tzc.isAbsent) with
  | true =>
    rw [htabs, if_pos rfl] at hok
    have hf : f = ⟨formatPad 4 yi ++ "." ++ fmtM mo ++ "." ++ fmtM dayo,
        .pyStr (formatPad 4 yi), .pyStr (if fmtM mo = "00" then "" else fmtM mo),
        .pyStr (if fmtM dayo = "00" then "" else fmtM dayo), hc, mnc, tzc⟩ :=
      (Except.ok.inj hok).symm
    subst hf
    have habsents : hc.isAbsent = true ∧ mnc.isAbsent = true ∧ tzc.isAbsent = true := by
      have h3 := htabs
      rw [Bool.and_eq_true, Bool.and_eq_true] at h3
      exact ⟨h3.1.1, h3.1.2, h3.2⟩
    refine ⟨yi, mo, dayo, none, hyr.1, hyr.2, rfl, ?_, ?_, hmb, hdb, by simp, ?_, by simp,
      fun _ => habsents⟩
    · exact congrArg Comp.pyStr (attr_of_fmt mo hmne)
    · exact congrArg Comp.pyStr (attr_of_fmt dayo hdne)
    · simp only [Option.elim, ymdBase, String.append_empty]
  | false =>
  rw [htabs, if_neg (by simp)] at hok
  by_cases hd00 : fmtM dayo = "00"
  · rw [if_pos hd00] at hok
    exact Except.noConfusion hok
  · rw [if_neg hd00] at hok
    cases hpart : (hc.isAbsent || mnc.isAbsent || tzc.isAbsent) with
    | true =>
      rw [hpart, if_pos rfl] at hok
      exact Except.noConfusion hok
    | false =>
    rw [hpart, if_neg (by simp)] at hok
    cases hhI : pyIntOf hc with
    | none =>
      rw [hhI] at hok
      exact Except.noConfusion hok
    | some h =>
    rw [hhI] at hok
    simp only [] at hok
    cases hhr : (decide (0 ≤ h) && decide (h < 24)) with
    | false =>
      rw [hhr] at hok
      simp only [Bool.not_false, if_true] at hok
      exact Except.noConfusion hok
    | true =>
    rw [hhr] at hok
    simp only [Bool.not_true, Bool.false_eq_true, if_false] at hok
    cases hmnI : pyIntOf mnc with
    | none =>
      rw [hmnI] at hok
      exact Except.noConfusion hok
    | some mn =>
    rw [hmnI] at hok
    simp only [] at hok
    cases hmnr : (decide (0 ≤ mn) && decide (mn < 60)) with
    | false =>
      rw [hmnr] at hok
      simp only [Bool.not_false, if_true] at hok
      exact Except.noConfusion hok
    | true =>
    rw [hmnr] at hok
    simp only [Bool.not_true, Bool.false_eq_true, if_false] at hok
    cases tzc with
    | pyNone => exact Except.noConfusion hok
    | pyInt k => exact Except.noConfusion hok
    | pyStr z =>
    simp only [] at hok
    cases htzm : tzMatch z with
    | false =>
      rw [htzm] at hok
      simp only [Bool.false_eq_true, if_false] at hok
      exact Except.noConfusion hok
    | true =>
    rw [htzm, if_pos rfl] at hok
    have hf : f = ⟨formatPad 4 yi ++ "." ++ fmtM mo ++ "." ++ fmtM dayo ++ " " ++
          formatPad 2 h ++ ":" ++ formatPad 2 mn ++ " " ++ z,
        .pyStr (formatPad 4 yi), .pyStr (if fmtM mo = "00" then "" else fmtM mo),
        .pyStr (if fmtM dayo = "00" then "" else fmtM dayo),
        .pyStr (formatPad 2 h), .pyStr (formatPad 2 mn), .pyStr z⟩ :=
      (Except.ok.inj hok).symm
    subst hf
    have hzne : z ≠ "" := by
      intro hz
      subst hz
      rw [Bool.or_eq_false_iff, Bool.or_eq_false_iff] at hpart
      have habs0 : (Comp.pyStr "").isAbsent = true := rfl
      rw [habs0] at hpart
      exact absurd hpart.2 (by simp)
    have hdsome : dayo.isSome = true := hdiso.mpr hd00
    have hh2 := hhr
    have hmn2 := hmnr
    rw [Bool.and_eq_true, decide_eq_true_iff, decide_eq_true_iff] at hh2 hmn2
    refine ⟨yi, mo, dayo, some (h, mn, z), hyr.1, hyr.2, rfl, ?_, ?_, hmb, hdb,
      fun _ => hdsome, ?_, ?_, by intro hcon; exact Option.noConfusion hcon⟩
    · exact congrArg Comp.pyStr (attr_of_fmt mo hmne)
    · exact congrArg Comp.pyStr (attr_of_fmt dayo hdne)
    · simp only [Option.elim, ymdBase, timeSuffix, String.append_assoc]
    · intro h2 mn2 z2 ht
      obtain ⟨rfl, rfl, rfl⟩ : h2 = h ∧ mn2 = mn ∧ z2 = z := by
        injection ht with ht2
        injection ht2 with ha hb
        injection hb with hb1 hb2
        exact ⟨ha.symm, hb1.symm, hb2.symm⟩
      exact ⟨hh2.1, hh2.2, hmn2.1, hmn2.2, htzm, hzne, rfl, rfl, rfl⟩

theorem takeWhile_all {p : Char → Bool} :
    ∀ l : List Char, (∀ c ∈ l, p c = true) → l.takeWhile p = l := by
  intro l h
  induction l with
  | nil => rfl
  | cons a t ih =>
    rw [List.takeWhile_cons, h a (by simp)]
    simp only [if_true]
    rw [ih (fun c hc => h c (by simp [hc]))]

theorem dropWhile_all {p : Char → Bool} :
    ∀ l : List Char, (∀ c ∈ l, p c = true) → l.dropWhile p = [] := by
  intro l h
  induction l with
  | nil => rfl
  | cons a t ih =>
    rw [List.dropWhile_cons, h a (by simp)]
    simp only [if_true]
    exact ih (fun c hc => h c (by simp [hc]))

theorem takeWhile_stop {p : Char → Bool} (A : List Char) (x : Char) (r : List Char)
    (hA : ∀ c ∈ A, p c = true) (hx : p x = false) :
    (A ++ x :: r).takeWhile p = A := by
  induction A with
  | nil => simp [List.takeWhile_cons, hx]
  | cons a t ih =>
    rw [List.cons_append, List.takeWhile_cons, hA a (by simp)]
    simp only [if_true]
    rw [ih (fun c hc => hA c (by simp [hc]))]

theorem dropWhile_stop {p : Char → Bool} (A : List Char) (x : Char) (r : List Char)
    (hA : ∀ c ∈ A, p c = true) (hx : p x = false) :
    (A ++ x :: r).dropWhile p = x :: r := by
  induction A with
  | nil => simp [List.dropWhile_cons, hx]
  | cons a t ih =>
    rw [List.cons_append, List.dropWhile_cons, hA a (by simp)]
    simp only [if_true]
    exact ih (fun c hc => hA c (by simp [hc]))

theorem span_stop {p : Char → Bool} (A : List Char) (x : Char) (r : List Char)
    (hA : ∀ c ∈ A, p c = true) (hx : p x = false) :
    (A ++ x :: r).span p = (A, x :: r) := by
  rw [List.span_eq_take_drop, takeWhile_stop A x r hA hx, dropWhile_stop A x r hA hx]

theorem span_all {p : Char → Bool} (l : List Char) (h : ∀ c ∈ l, p c = true) :
    l.span p = (l, []) := by
  rw [List.span_eq_take_drop, takeWhile_all l h, dropWhile_all l h]

/-- Exact Area/Location shape as enforced by the anchored DATE_PATTERN tz
group: letters/underscores, one slash, letters/underscores, nothing else. -/
def tzStrict (z : String) : Bool :=
  let a := z.data.span isTzC
  !a.1.isEmpty &&
    (match a.2 with
     | c :: r2 =>
       if c = '/' then
         let b := r2.span isTzC
         !b.1.isEmpty && b.2.isEmpty
       else false
     | [] => false)

theorem tzStrict_spec {z : String} (h : tzStrict z = true) :
    ∃ A B : List Char, z.data = A ++ '/' :: B ∧ A ≠ [] ∧ B ≠ [] ∧
      (∀ c ∈ A, isTzC c = true) ∧ (∀ c ∈ B, isTzC c = true) := by
  unfold tzStrict at h
  rw [List.span_eq_take_drop] at h
  simp only [] at h
  cases hdrop : z.data.dropWhile isTzC with
  | nil =>
    rw [hdrop] at h
    simp at h
  | cons c r2 =>
    rw [hdrop] at h
    simp only [] at h
    by_cases hc : c = '/'
    · subst hc
      rw [if_pos rfl, List.span_eq_take_drop] at h
      simp only [Bool.and_eq_true] at h
      obtain ⟨hA, hB, hB2⟩ := h
      have hr2 : r2.takeWhile isTzC = r2 := by
        rw [takeWhile_all]
        intro x hx
        have hdnil : r2.dropWhile isTzC = [] := by
          cases hd : r2.dropWhile isTzC with
          | nil => rfl
          | cons u v => rw [hd] at hB2; simp at hB2
        rw [List.dropWhile_eq_nil_iff] at hdnil
        exact hdnil x hx
      refine ⟨z.data.takeWhile isTzC, r2, ?_, ?_, ?_, ?_, ?_⟩
      · conv_lhs => rw [← List.takeWhile_append_dropWhile (p := isTzC) (l := z.data)]
        rw [hdrop]
      · intro hnil
        rw [hnil] at hA
        simp at hA
      · intro hnil
        rw [hnil] at hB
        simp at hB
      · intro x hx
        exact List.mem_takeWhile_imp hx
      · intro x hx
        have hdnil : r2.dropWhile isTzC = [] := by
          cases hd : r2.dropWhile isTzC with
          | nil => rfl
          | cons u v => rw [hd] at hB2; simp at hB2
        rw [List.dropWhile_eq_nil_iff] at hdnil
        exact hdnil x hx
    · rw [if_neg hc] at h
      simp at h

theorem tzC_not_space {c : Char} (h : isTzC c = true) : isSpaceC c = false := by
  cases hs : isSpaceC c with
  | false => rfl
  | true =>
    have h2 := of_decide_eq_true hs
    rcases h2 with rfl | rfl | rfl | rfl | rfl | rfl <;> exact absurd h (by decide)

theorem pyStripL_id2 (l : List Char) (h1 : ∀ c, l.head? = some c → isSpaceC c = false)
    (h2 : ∀ c, l.getLast? = some c → isSpaceC c = false) : pyStripL l = l := by
  unfold pyStripL
  have hd : l.dropWhile isSpaceC = l := by
    cases l with
    | nil => rfl
    | cons a t =>
      rw [List.dropWhile_cons, h1 a rfl]
      simp
  rw [hd]
  have hr : l.reverse.dropWhile isSpaceC = l.reverse := by
    cases hrv : l.reverse with
    | nil => rfl
    | cons a t =>
      rw [List.dropWhile_cons]
      have hlast : l.getLast? = some a := by
        rw [← List.head?_reverse, hrv]
        rfl
      rw [h2 a hlast]
      simp
  rw [hr, List.reverse_reverse]

theorem fmt2_pair (n : Int) (h0 : 0 ≤ n) (h99 : n ≤ 99) :
    ∃ a b, (formatPad 2 n).data = [a, b] ∧ isDigitC a = true ∧ isDigitC b = true := by
  have hsh := formatPad_shape 2 n h0 (by omega) (by omega)
  obtain ⟨a, b, hab⟩ := exists_pair _ hsh.1
  refine ⟨a, b, hab, ?_, ?_⟩
  · exact hsh.2 a (by rw [hab]; simp)
  · exact hsh.2 b (by rw [hab]; simp)

theorem fmt4_quad (y : Int) (h1 : 1000 ≤ y) (h2 : y ≤ 9999) :
    ∃ c1 c2 c3 c4, (formatPad 4 y).data = [c1, c2, c3, c4] ∧ isDigitC c1 = true ∧
      isDigitC c2 = true ∧ isDigitC c3 = true ∧ isDigitC c4 = true := by
  have hsh := formatPad_shape 4 y (by omega) (by omega) (by omega)
  obtain ⟨c1, c2, c3, c4, hq⟩ := exists_quad _ hsh.1
  refine ⟨c1, c2, c3, c4, hq, ?_, ?_, ?_, ?_⟩ <;> apply hsh.2 <;> rw [hq] <;> simp

theorem parseTime_canon (h mn : Int) (z : String)
    (hh0 : 0 ≤ h) (hh9 : h ≤ 99) (hmn0 : 0 ≤ mn) (hmn9 : mn ≤ 99)
    (hz : tzStrict z = true) :
    parseTime (timeSuffix h mn z).data = some (formatPad 2 h, formatPad 2 mn, z) := by
  obtain ⟨a1, a2, hadata, ha1, ha2⟩ := fmt2_pair h hh0 hh9
  obtain ⟨b1, b2, hbdata, hb1, hb2⟩ := fmt2_pair mn hmn0 hmn9
  obtain ⟨A, B, hzdata, hAne, hBne, hAmem, hBmem⟩ := tzStrict_spec hz
  have hdata : (timeSuffix h mn z).data
      = ' ' :: a1 :: a2 :: ':' :: b1 :: b2 :: ' ' :: (A ++ '/' :: B) := by
    simp [timeSuffix, String.data_append, hadata, hbdata, hzdata]
  rw [hdata]
  unfold parseTime
  simp only []
  rw [show List.span isSpaceC (' ' :: a1 :: a2 :: ':' :: b1 :: b2 :: ' ' :: (A ++ '/' :: B))
      = ([' '], a1 :: a2 :: ':' :: b1 :: b2 :: ' ' :: (A ++ '/' :: B)) from
    span_stop [' '] a1 (a2 :: ':' :: b1 :: b2 :: ' ' :: (A ++ '/' :: B))
      (by intro c hc; simp at hc; subst hc; decide) (isDigit_not_space a1 ha1)]
  simp only [List.isEmpty_cons, Bool.false_eq_true, if_false, ha1, ha2, hb1, hb2,
    Bool.and_self, Bool.true_and, Bool.and_true, if_true]
  obtain ⟨a0, A', rfl⟩ : ∃ a0 A', A = a0 :: A' := by
    cases A with
    | nil => exact absurd rfl hAne
    | cons a0 A' => exact ⟨a0, A', rfl⟩
  rw [show List.span isSpaceC (' ' :: ((a0 :: A') ++ '/' :: B))
      = ([' '], (a0 :: A') ++ '/' :: B) from
    span_stop [' '] a0 (A' ++ '/' :: B)
      (by intro c hc; simp at hc; subst hc; decide)
      (tzC_not_space (hAmem a0 (by simp)))]
  simp only [List.isEmpty_cons, Bool.false_eq_true, if_false]
  rw [span_stop (a0 :: A') '/' B hAmem (by decide)]
  simp only [List.isEmpty_cons, Bool.false_eq_true, if_false]
  rw [span_all B hBmem]
  obtain ⟨bb0, B', rfl⟩ : ∃ bb0 B', B = bb0 :: B' := by
    cases B with
    | nil => exact absurd rfl hBne
    | cons bb0 B' => exact ⟨bb0, B', rfl⟩
  simp only [List.isEmpty_cons, List.isEmpty_nil, Bool.not_true, Bool.false_or,
    Bool.false_eq_true, if_false]
  rw [show String.mk [a1, a2] = formatPad 2 h by rw [← hadata]]
  rw [show String.mk [b1, b2] = formatPad 2 mn by rw [← hbdata]]
  rw [show String.mk ((a0 :: A') ++ '/' :: (bb0 :: B')) = z by rw [← hzdata]]

theorem fmtM_pair (mo : Option Int) (h : ∀ m, mo = some m → 0 ≤ m ∧ m ≤ 99) :
    ∃ a b, (fmtM mo).data = [a, b] ∧ isDigitC a = true ∧ isDigitC b = true := by
  cases mo with
  | none => exact ⟨'0', '0', rfl, rfl, rfl⟩
  | some m =>
    obtain ⟨hm0, hm99⟩ := h m rfl
    exact fmt2_pair m hm0 hm99

theorem getLast?_cons_ne (a : Char) (l : List Char) (h : l ≠ []) :
    (a :: l).getLast? = l.getLast? := by
  cases l with
  | nil => exact absurd rfl h
  | cons b t => exact List.getLast?_cons_cons ..

theorem parseDate_canon (y : Int) (mo dayo : Option Int) (t : Option (Int × Int × String))
    (hy1 : 1000 ≤ y) (hy2 : y ≤ 9999)
    (hmo : ∀ m, mo = some m → 0 ≤ m ∧ m ≤ 99)
    (hdo : ∀ d, dayo = some d → 0 ≤ d ∧ d ≤ 99)
    (ht : ∀ h mn z, t = some (h, mn, z) →
      0 ≤ h ∧ h ≤ 99 ∧ 0 ≤ mn ∧ mn ≤ 99 ∧ tzStrict z = true) :
    parseDate (pyStripL (ymdBase y mo dayo ++ t.elim "" fun p => timeSuffix p.1 p.2.1 p.2.2).data)
      = some ⟨formatPad 4 y, some (fmtM mo), some (fmtM dayo),
              t.map fun p => formatPad 2 p.1, t.map fun p => formatPad 2 p.2.1,
              t.map fun p => p.2.2⟩ := by
  obtain ⟨c1, c2, c3, c4, h4data, hc1, hc2, hc3, hc4⟩ := fmt4_quad y hy1 hy2
  obtain ⟨m1, m2, hmdata, hm1, hm2⟩ := fmtM_pair mo hmo
  obtain ⟨d1, d2, hddata, hd1, hd2⟩ := fmtM_pair dayo hdo
  cases t with
  | none =>
    have hdata : (ymdBase y mo dayo ++
        (none : Option (Int × Int × String)).elim "" fun p => timeSuffix p.1 p.2.1 p.2.2).data
        = c1 :: c2 :: c3 :: c4 :: '.' :: m1 :: m2 :: '.' :: d1 :: d2 :: [] := by
      simp [ymdBase, String.data_append, h4data, hmdata, hddata, Option.elim]
    rw [hdata]
    rw [pyStripL_id2]
    · unfold parseDate
      simp only []
      rw [hc1, hc2, hc3, hc4]
      simp only [Bool.and_self, if_true]
      rw [hm1, hm2]
      simp only [Bool.and_self, Bool.and_true, Bool.true_and, if_true,
        show isSepC '.' = true from rfl]
      rw [hd1, hd2]
      simp only [Bool.and_self, Bool.and_true, Bool.true_and, if_true,
        show isSepC '.' = true from rfl, List.isEmpty_nil]
      rw [show String.mk [c1, c2, c3, c4] = formatPad 4 y by rw [← h4data]]
      rw [show String.mk [m1, m2] = fmtM mo by rw [← hmdata]]
      rw [show String.mk [d1, d2] = fmtM dayo by rw [← hddata]]
      rfl
    · intro c hc
      injection hc with hc
      subst hc
      exact isDigit_not_space c1 hc1
    · intro c hc
      have hl : (c1 :: c2 :: c3 :: c4 :: '.' :: m1 :: m2 :: '.' :: d1 :: d2 :: []).getLast?
          = some d2 := by
        simp [List.getLast?_cons_cons]
      rw [hl] at hc
      injection hc with hc
      subst hc
      exact isDigit_not_space d2 hd2
  | some p =>
    obtain ⟨h, mn, z⟩ := p
    obtain ⟨hh0, hh9, hmn0, hmn9, hzs⟩ := ht h mn z rfl
    obtain ⟨a1, a2, hadata, ha1, ha2⟩ := fmt2_pair h hh0 hh9
    obtain ⟨b1, b2, hbdata, hb1, hb2⟩ := fmt2_pair mn hmn0 hmn9
    obtain ⟨A, B, hzdata, hAne, hBne, hAmem, hBmem⟩ := tzStrict_spec hzs
    rcases List.eq_nil_or_concat B with rfl | ⟨B0, bl, rfl⟩
    · exact absurd rfl hBne
    have hbl : isTzC bl = true := hBmem bl (by simp)
    have hdata : (ymdBase y mo dayo ++
        Option.elim (some (h, mn, z)) "" fun p => timeSuffix p.1 p.2.1 p.2.2).data
        = c1 :: c2 :: c3 :: c4 :: '.' :: m1 :: m2 :: '.' :: d1 :: d2 ::
          (' ' :: a1 :: a2 :: ':' :: b1 :: b2 :: ' ' :: (A ++ '/' :: (B0 ++ [bl]))) := by
    
      simp [ymdBase, timeSuffix, Option.elim, String.data_append, h4data, hmdata, hddata,
        hadata, hbdata, hzdata]
    rw [hdata]
    rw [pyStripL_id2]
    · unfold parseDate
      simp only []
      rw [hc1, hc2, hc3, hc4]
      simp only [Bool.and_self, if_true]
      rw [hm1, hm2]
      simp only [Bool.and_self, Bool.and_true, Bool.true_and, if_true,
        show isSepC '.' = true from rfl]
      rw [hd1, hd2]
      simp only [Bool.and_self, Bool.and_true, Bool.true_and, if_true,
        show isSepC '.' = true from rfl, List.isEmpty_cons, Bool.false_eq_true, if_false]
      have htime := parseTime_canon h mn z hh0 hh9 hmn0 hmn9 hzs
      have htsdata : (timeSuffix h mn z).data
          = ' ' :: a1 :: a2 :: ':' :: b1 :: b2 :: ' ' :: (A ++ '/' :: (B0 ++ [bl])) := by
        simp [timeSuffix, String.data_append, hadata, hbdata, hzdata]
      rw [htsdata] at htime
      rw [htime]
      rw [show String.mk [c1, c2, c3, c4] = formatPad 4 y by rw [← h4data]]
      rw [show String.mk [m1, m2] = fmtM mo by rw [← hmdata]]
      rw [show String.mk [d1, d2] = fmtM dayo by rw [← hddata]]
      rfl
    · intro c hc
      injection hc with hc
      subst hc
      exact isDigit_not_space c1 hc1
    · intro c hc
      have hl : (c1 :: c2 :: c3 :: c4 :: '.' :: m1 :: m2 :: '.' :: d1 :: d2 ::
          (' ' :: a1 :: a2 :: ':' :: b1 :: b2 :: ' ' :: (A ++ '/' :: (B0 ++ [bl])))).getLast?
          = some bl := by
        simp only [List.getLast?_cons_cons]
        rw [getLast?_cons_ne ' ' _ (by simp)]
        rw [List.getLast?_append]
        rw [getLast?_cons_ne '/' _ (by simp)]
        rw [List.getLast?_append]
        simp
      rw [hl] at hc
      injection hc with hc
      subst hc
      exact tzC_not_space hbl

theorem pyInt_truthy {n : Int} (h : n ≠ 0) : (Comp.pyInt n).truthy = true := by
  simp [Comp.truthy, h]

theorem pyStr_truthy {s : String} (h : s ≠ "") : (Comp.pyStr s).truthy = true := by
  simp [Comp.truthy, h]

theorem isValidDate_true {y m d : Int} (h1 : 1 ≤ y) (h2 : y ≤ 9999) (h3 : 1 ≤ m)
    (h4 : m ≤ 12) (h5 : 1 ≤ d) (h6 : d ≤ daysInMonth y m) : isValidDate y m d = true :=
  decide_eq_true ⟨h1, h2, h3, h4, h5, h6⟩

theorem daysInMonth_mem (y m : Int) :
    daysInMonth y m = 28 ∨ daysInMonth y m = 29 ∨ daysInMonth y m = 30 ∨ daysInMonth y m = 31 := by
  unfold daysInMonth
  split
  · split
    · right; left; rfl
    · left; rfl
  · split
    · right; right; left; rfl
    · right; right; right; rfl

theorem daysInMonth_pos (y m : Int) : 1 ≤ daysInMonth y m := by
  rcases daysInMonth_mem y m with h | h | h | h <;> omega

theorem daysInMonth_le31 (y m : Int) : daysInMonth y m ≤ 31 := by
  rcases daysInMonth_mem y m with h | h | h | h <;> omega

theorem daysInMonth_one (y : Int) : daysInMonth y 1 = 31 := rfl

theorem daysInMonth_twelve (y : Int) : daysInMonth y 12 = 31 := rfl

theorem strcat_00_00 (s : String) : s ++ "." ++ "00" ++ "." ++ "00" = s ++ ".00.00" := by
  simp [String.append_assoc]

/-- C10: get_range on the canonical empty FuzzyDate raises rather than
returning a range: the empty year attribute cannot be parsed by int().
The first conjunct shows the empty value is validly constructed (the
all-absent component set), the second that its year attribute is the
empty string. -/
theorem C10_empty_get_range :
    validate (.pyStr "") (.pyStr "") (.pyStr "") (.pyStr "") (.pyStr "") (.pyStr "") = .ok emptyFD ∧
    emptyFD.year = .pyStr "" ∧
    emptyFD.get_range = .error .notAnInteger := ⟨rfl, rfl, rfl⟩

/-- C8: the explicit-components constructor treats a month given as the
placeholder string "00", or as the integer 0 (which formats to "00"),
exactly like an absent month: for every valid year the three calls agree,
the month attribute is the empty string, the value is fuzzy, and the
canonical encoding carries the "00" placeholder. -/
theorem C8_month_placeholder (y : Int) (hy1 : 1000 ≤ y) (hy2 : y ≤ 9999) :
    fromKwargs (.pyInt y) (.pyStr "00") .pyNone .pyNone .pyNone .pyNone
      = fromKwargs (.pyInt y) .pyNone .pyNone .pyNone .pyNone .pyNone ∧
    fromKwargs (.pyInt y) (.pyInt 0) .pyNone .pyNone .pyNone .pyNone
      = fromKwargs (.pyInt y) .pyNone .pyNone .pyNone .pyNone .pyNone ∧
    ∃ f, fromKwargs (.pyInt y) (.pyStr "00") .pyNone .pyNone .pyNone .pyNone = .ok f ∧
      f.month = .pyStr "" ∧ f.is_fuzzy = true ∧ f.base = formatPad 4 y ++ ".00.00" := by
  have hyT : (Comp.pyInt y).truthy = true := pyInt_truthy (by omega)
  have hvalid : isValidDate y ((none : Option Int).getD 1) ((none : Option Int).getD 1) = true := by
    rw [show ((none : Option Int).getD 1) = 1 from rfl]
    exact isValidDate_true (by omega) (by omega) (by omega) (by omega) (by omega)
      (by rw [daysInMonth_one]; omega)
  have hrun : ∀ mc : Comp, coerceMD mc = some ("00", 1) →
      validate (.pyInt y) mc (.pyStr "") (.pyStr "") (.pyStr "") (.pyStr "")
        = .ok ⟨ymdBase y none none, .pyStr (formatPad 4 y), .pyStr "", .pyStr "",
               .pyStr "", .pyStr "", .pyStr ""⟩ := by
    intro mc hmc
    exact validate_ok_noTime (.pyInt y) mc (.pyStr "") (.pyStr "") (.pyStr "") (.pyStr "")
      y none none hyT rfl hmc rfl (by rfl) hy1 hy2 hvalid rfl rfl rfl
  have h00 := hrun (.pyStr "00") rfl
  have hEmpty := hrun (.pyStr "") rfl
  have hInt0 := hrun (.pyInt 0) rfl
  have hbase : ymdBase y none none = formatPad 4 y ++ ".00.00" := by
    show formatPad 4 y ++ "." ++ "00" ++ "." ++ "00" = _
    exact strcat_00_00 (formatPad 4 y)
  refine ⟨?_, ?_, ?_⟩
  · show validate (.pyInt y) (.pyStr "00") (.pyStr "") (.pyStr "") (.pyStr "") (.pyStr "")
        = validate (.pyInt y) (.pyStr "") (.pyStr "") (.pyStr "") (.pyStr "") (.pyStr "")
    rw [h00, hEmpty]
  · show validate (.pyInt y) (.pyInt 0) (.pyStr "") (.pyStr "") (.pyStr "") (.pyStr "")
        = validate (.pyInt y) (.pyStr "") (.pyStr "") (.pyStr "") (.pyStr "") (.pyStr "")
    rw [hInt0, hEmpty]
  · refine ⟨_, h00, rfl, rfl, hbase⟩

/-- C8 witness at the concrete year 2020. -/
theorem C8_month_placeholder_witness :
    fromKwargs (.pyInt 2020) (.pyStr "00") .pyNone .pyNone .pyNone .pyNone
      = fromKwargs (.pyInt 2020) .pyNone .pyNone .pyNone .pyNone .pyNone ∧
    fromKwargs (.pyInt 2020) (.pyInt 0) .pyNone .pyNone .pyNone .pyNone
      = fromKwargs (.pyInt 2020) .pyNone .pyNone .pyNone .pyNone .pyNone ∧
    ∃ f, fromKwargs (.pyInt 2020) (.pyStr "00") .pyNone .pyNone .pyNone .pyNone = .ok f ∧
      f.month = .pyStr "" ∧ f.is_fuzzy = true ∧ f.base = formatPad 4 2020 ++ ".00.00" :=
  C8_month_placeholder 2020 (by decide) (by decide)

/-- C6 counterexample: the claim says a timezone string with trailing
characters after the Location part, or with more than one slash, is
always rejected, and that unresolved zones fail; but the component path
accepts "America/Chicago/Extra" (TZ_PATTERN.match is unanchored at the
end) and accepts a nonexistent zone, since no zone resolution happens at
construction. -/
theorem C6_tz_counterexample :
    fromKwargs (.pyInt 2020) (.pyInt 5) (.pyInt 15) (.pyInt 10) (.pyInt 30)
        (.pyStr "America/Chicago/Extra")
      = .ok ⟨"2020.05.15 10:30 America/Chicago/Extra", .pyStr "2020", .pyStr "05",
             .pyStr "15", .pyStr "10", .pyStr "30", .pyStr "America/Chicago/Extra"⟩ ∧
    exceptIsOk (fromKwargs (.pyInt 2020) (.pyInt 5) (.pyInt 15) (.pyInt 10) (.pyInt 30)
        (.pyStr "Klingon/Qonos")) = true := ⟨rfl, rfl⟩

/-- C6 amended: construction with a timezone component succeeds exactly
when TZ_PATTERN matches a PREFIX of the string (letters, one slash,
letters/underscores; trailing characters allowed, no zone resolution);
the text-construction path, whose grammar is anchored, still rejects the
trailing-characters form; and an underscore in the Area part fails the
prefix check. -/
theorem C6_tz_prefix_match (z : String) (hz : z ≠ "") :
    (validate (.pyInt 2020) (.pyInt 5) (.pyInt 15) (.pyInt 10) (.pyInt 30) (.pyStr z)
      = if tzMatch z then
          .ok ⟨"2020.05.15 10:30 " ++ z, .pyStr "2020", .pyStr "05", .pyStr "15",
               .pyStr "10", .pyStr "30", .pyStr z⟩
        else .error .invalidTimezone) ∧
    tzMatch "America/Chicago/Extra" = true ∧
    tzMatch "A_b/C" = false ∧
    fromText "2020.05.15 10:30 America/Chicago/Extra" = .error .malformedInput := by
  refine ⟨?_, by decide, by decide, by rfl⟩
  have key : validate (.pyInt 2020) (.pyInt 5) (.pyInt 15) (.pyInt 10) (.pyInt 30) (.pyStr z)
      = if (Comp.pyStr z).isAbsent = true then .error .incompleteTimeBlock
        else if tzMatch z then
          .ok ⟨"2020.05.15 10:30 " ++ z, .pyStr "2020", .pyStr "05", .pyStr "15",
               .pyStr "10", .pyStr "30", .pyStr z⟩
        else .error .invalidTimezone := rfl
  rw [key, if_neg]
  simp [Comp.isAbsent, hz]

/-- C6 witness: a well-formed zone at the concrete date. -/
theorem C6_tz_prefix_match_witness :
    (validate (.pyInt 2020) (.pyInt 5) (.pyInt 15) (.pyInt 10) (.pyInt 30)
        (.pyStr "America/Chicago")
      = if tzMatch "America/Chicago" then
          .ok ⟨"2020.05.15 10:30 " ++ "America/Chicago", .pyStr "2020", .pyStr "05",
               .pyStr "15", .pyStr "10", .pyStr "30", .pyStr "America/Chicago"⟩
        else .error .invalidTimezone) ∧
    tzMatch "America/Chicago/Extra" = true ∧
    tzMatch "A_b/C" = false ∧
    fromText "2020.05.15 10:30 America/Chicago/Extra" = .error .malformedInput :=
  C6_tz_prefix_match "America/Chicago" (by decide)

theorem C4a_core (y : Int) (hy0 : y ≠ 0) (hy : y < 1000 ∨ 9999 < y) :
    validate (.pyInt y) .pyNone .pyNone .pyNone .pyNone .pyNone = .error .yearOutOfRange := by
  have hyT : (Comp.pyInt y).truthy = true := pyInt_truthy hy0
  have hrange : (decide (y < 1000) || decide (9999 < y)) = true := by
    rcases hy with h | h <;> simp [h]
  have hyabs : (Comp.pyInt y).isAbsent = false := rfl
  simp only [validate, hyabs, hyT, show pyIntOf (.pyInt y) = some y from rfl,
    show Comp.truthy .pyNone = false from rfl, show Comp.isAbsent .pyNone = true from rfl,
    show coerceMD .pyNone = some ("00", 1) from rfl, hrange,
    Bool.false_and, Bool.and_false, Bool.and_true, Bool.true_and, Bool.not_true,
    Bool.false_eq_true, if_false, if_true]

theorem C4b_core (yc mc dc : Comp) (hd : dc.truthy = true) (hm : mc.isAbsent = true)
    (hy : yc.isAbsent = true ∨ (pyIntOf yc).isSome = true) :
    ∃ e, validate yc mc dc .pyNone .pyNone .pyNone = .error e ∧
      e.kind = .incompleteComponents := by
  have hdabs : dc.isAbsent = false := truthy_not_absent hd
  have hmt : mc.truthy = false := absent_not_truthy hm
  cases hty : yc.truthy with
  | false =>
    refine ⟨.yearMissing, ?_, rfl⟩
    simp only [validate, hdabs, hty, Bool.and_false, Bool.false_and, Bool.not_false,
      Bool.false_eq_true, if_false, if_true]
  | true =>
    obtain ⟨k, hk⟩ : ∃ k, pyIntOf yc = some k := by
      rcases hy with h | h
      · rw [absent_not_truthy h] at hty
        cases hty
      · exact Option.isSome_iff_exists.mp h
    refine ⟨.dayWithoutMonth, ?_, rfl⟩
    simp only [validate, hdabs, hty, hk, hd, hmt, Bool.and_false, Bool.false_and,
      Bool.not_true, Bool.not_false, Bool.true_and, Bool.and_true, Bool.false_eq_true,
      if_false, if_true]

theorem C4c_core (yc mc dc hc mnc tzc : Comp) (f : FuzzyDate)
    (hok : validate yc mc dc .pyNone .pyNone .pyNone = .ok f)
    (hsome : hc.isAbsent = false ∨ mnc.isAbsent = false ∨ tzc.isAbsent = false)
    (habs1 : hc.isAbsent = true ∨ mnc.isAbsent = true ∨ tzc.isAbsent = true) :
    ∃ e, validate yc mc dc hc mnc tzc = .error e ∧ e.kind = .incompleteComponents := by
  have htmix : (hc.isAbsent && mnc.isAbsent && tzc.isAbsent) = false := by
    rcases hsome with h | h | h <;> simp [h]
  have htpart : (hc.isAbsent || mnc.isAbsent || tzc.isAbsent) = true := by
    rcases habs1 with h | h | h <;> simp [h]
  rw [validate.eq_def] at hok
  rw [validate.eq_def]
  simp only [show Comp.isAbsent .pyNone = true from rfl, Bool.and_true] at hok
  cases habs : (yc.isAbsent && mc.isAbsent && dc.isAbsent) with
  | true =>
    rw [Bool.and_eq_true, Bool.and_eq_true] at habs
    have hyt : yc.truthy = false := absent_not_truthy habs.1.1
    refine ⟨.yearMissing, ?_, rfl⟩
    simp only [Bool.true_and]
    rw [htmix, if_neg (by simp), hyt]
    simp only [Bool.not_false, if_true]
  | false =>
    rw [habs, if_neg (by simp)] at hok
    simp only [Bool.false_and]
    rw [if_neg (by simp)]
    cases hty : yc.truthy with
    | false =>
      rw [hty] at hok
      simp only [Bool.not_false, if_true] at hok
      exact Except.noConfusion hok
    | true =>
    rw [hty] at hok
    simp only [Bool.not_true, Bool.false_eq_true, if_false] at hok ⊢
    cases hyI : pyIntOf yc with
    | none =>
      rw [hyI] at hok
      exact Except.noConfusion hok
    | some yi =>
    rw [hyI] at hok
    simp only [] at hok ⊢
    cases hdm : (dc.truthy && !mc.truthy) with
    | true =>
      rw [hdm, if_pos rfl] at hok
      exact Except.noConfusion hok
    | false =>
    rw [hdm, if_neg (by simp)] at hok
    rw [if_neg (by simp)]
    cases hmc : coerceMD mc with
    | none =>
      rw [hmc] at hok
      exact Except.noConfusion hok
    | some pm =>
    obtain ⟨monthS, mi⟩ := pm
    rw [hmc] at hok
    cases hdc : coerceMD dc with
    | none =>
      rw [hdc] at hok
      exact Except.noConfusion hok
    | some pd =>
    obtain ⟨dayS, di⟩ := pd
    rw [hdc] at hok
    simp only [] at hok ⊢
    cases hrange : (decide (yi < 1000) || decide (9999 < yi)) with
    | true =>
      rw [hrange, if_pos rfl] at hok
      exact Except.noConfusion hok
    | false =>
    rw [hrange, if_neg (by simp)] at hok
    rw [if_neg (by simp)]
    cases hvb : isValidDate yi mi di with
    | false =>
      rw [hvb] at hok
      simp only [Bool.not_false, if_true] at hok
      exact Except.noConfusion hok
    | true =>
    simp only [Bool.not_true, Bool.false_eq_true, if_false]
    rw [htmix, if_neg (by simp)]
    by_cases hds : dayS = "00"
    · refine ⟨.timeWithoutFullDate, ?_, rfl⟩
      rw [if_pos hds]
    · refine ⟨.incompleteTimeBlock, ?_, rfl⟩
      rw [if_neg hds, htpart, if_pos rfl]

/-- C4 counterexample: construction with the integer year 0 (outside
[1000, 9999]) fails with the year-must-be-specified error (an
IncompleteComponents kind), not OutOfRange, because 0 is falsy in
Python; and an input with day given as the integer 0 and month absent
SUCCEEDS (0 is falsy, so the day-without-month rule never fires and 0
coerces to the "00" placeholder), contradicting the claimed
IncompleteComponents failure. -/
theorem C4_counterexample :
    validate (.pyInt 0) (.pyStr "") (.pyStr "") (.pyStr "") (.pyStr "") (.pyStr "")
      = .error .yearMissing ∧
    FDError.yearMissing.kind ≠ ErrKind.outOfRange ∧
    fromKwargs (.pyInt 2020) .pyNone (.pyInt 0) .pyNone .pyNone .pyNone
      = .ok ⟨"2020.00.00", .pyStr "2020", .pyStr "", .pyStr "", .pyStr "", .pyStr "",
             .pyStr ""⟩ := ⟨rfl, by decide, rfl⟩

/-- C4 amended: (i) for every NONZERO integer year outside [1000, 9999]
construction fails with OutOfRange (year 0 instead falls into the
year-missing IncompleteComponents error); (ii) for every input whose day
component is truthy and whose month is absent, and whose year is absent
or parses as an integer, construction fails with an IncompleteComponents
error (a day of integer 0 counts as absent, not as present); (iii) for
any date components that validate on their own, adding one or two but
not all three of hour/minute/timezone fails with IncompleteComponents. -/
theorem C4_validation_totality :
    (∀ y : Int, y ≠ 0 → (y < 1000 ∨ 9999 < y) →
      validate (.pyInt y) .pyNone .pyNone .pyNone .pyNone .pyNone = .error .yearOutOfRange ∧
      FDError.yearOutOfRange.kind = .outOfRange) ∧
    (∀ yc mc dc : Comp, dc.truthy = true → mc.isAbsent = true →
      (yc.isAbsent = true ∨ (pyIntOf yc).isSome = true) →
      ∃ e, validate yc mc dc .pyNone .pyNone .pyNone = .error e ∧
        e.kind = .incompleteComponents) ∧
    (∀ yc mc dc hc mnc tzc : Comp, ∀ f : FuzzyDate,
      validate yc mc dc .pyNone .pyNone .pyNone = .ok f →
      (hc.isAbsent = false ∨ mnc.isAbsent = false ∨ tzc.isAbsent = false) →
      (hc.isAbsent = true ∨ mnc.isAbsent = true ∨ tzc.isAbsent = true) →
      ∃ e, validate yc mc dc hc mnc tzc = .error e ∧ e.kind = .incompleteComponents) := by
  refine ⟨?_, ?_, ?_⟩
  · intro y hy0 hy
    exact ⟨C4a_core y hy0 hy, rfl⟩
  · intro yc mc dc hd hm hy
    exact C4b_core yc mc dc hd hm hy
  · intro yc mc dc hc mnc tzc f hok hsome habs1
    exact C4c_core yc mc dc hc mnc tzc f hok hsome habs1

/-- C4 witness at concrete inputs: year 12000, a day-without-month input,
and an hour-only time block on a valid date. -/
theorem C4_validation_totality_witness :
    (validate (.pyInt 12000) .pyNone .pyNone .pyNone .pyNone .pyNone
        = .error .yearOutOfRange ∧ FDError.yearOutOfRange.kind = .outOfRange) ∧
    (∃ e, validate .pyNone .pyNone (.pyInt 5) .pyNone .pyNone .pyNone = .error e ∧
      e.kind = .incompleteComponents) ∧
    (∃ e, validate (.pyInt 2020) (.pyInt 5) (.pyInt 15) (.pyInt 10) .pyNone .pyNone
      = .error e ∧ e.kind = .incompleteComponents) :=
  ⟨C4_validation_totality.1 12000 (by decide) (Or.inr (by decide)),
   C4_validation_totality.2.1 .pyNone .pyNone (.pyInt 5) rfl rfl (Or.inl rfl),
   C4_validation_totality.2.2 (.pyInt 2020) (.pyInt 5) (.pyInt 15) (.pyInt 10) .pyNone .pyNone
     ⟨"2020.05.15", .pyStr "2020", .pyStr "05", .pyStr "15", .pyNone, .pyNone, .pyNone⟩
     rfl (Or.inl rfl) (Or.inr (Or.inl rfl))⟩

theorem substM (m : Int) :
    (if m = 0 then (none : Option Int) else some m).getD 1 = if m = 0 then 1 else m := by
  by_cases h : m = 0 <;> simp [h]

theorem C5_badDate_core (y m d : Int) (hy1 : 1000 ≤ y) (hy2 : y ≤ 9999)
    (hdm : ((Comp.pyInt d).truthy && !(Comp.pyInt m).truthy) = false)
    (hbad : isValidDate y (if m = 0 then 1 else m) (if d = 0 then 1 else d) = false) :
    validate (.pyInt y) (.pyInt m) (.pyInt d) .pyNone .pyNone .pyNone
      = .error .invalidCalendarDate := by
  have hrange : (decide (y < 1000) || decide (9999 < y)) = false := by
    simp
    omega
  have hbad2 : isValidDate y ((if m = 0 then (none : Option Int) else some m).getD 1)
      ((if d = 0 then (none : Option Int) else some d).getD 1) = false := by
    rw [substM, substM]
    exact hbad
  simp only [validate, show (Comp.pyInt y).isAbsent = false from rfl,
    pyInt_truthy (show y ≠ 0 by omega), show pyIntOf (.pyInt y) = some y from rfl,
    hdm, coerceMD_int_canon m, coerceMD_int_canon d, hrange, hbad2,
    Bool.false_and, Bool.and_false, Bool.not_true, Bool.not_false,
    Bool.false_eq_true, if_false, if_true]

/-- C5: during construction 1 is substituted for any absent (or
zero-valued, which formats to the "00" placeholder) month or day; the
substituted triple failing the Gregorian calendar check is exactly what
raises InvalidCalendarDate, and a valid substituted triple always passes
(with no time components, construction then succeeds).  The concrete
scenarios: "2020.02.29" is accepted (leap year) while "2019.02.29" is
rejected with InvalidCalendarDate. -/
theorem C5_calendar_substitution (y m d : Int)
    (hy1 : 1000 ≤ y) (hy2 : y ≤ 9999) (hdm : d ≠ 0 → m ≠ 0) :
    (isValidDate y (if m = 0 then 1 else m) (if d = 0 then 1 else d) = false →
      validate (.pyInt y) (.pyInt m) (.pyInt d) .pyNone .pyNone .pyNone
        = .error .invalidCalendarDate) ∧
    (isValidDate y (if m = 0 then 1 else m) (if d = 0 then 1 else d) = true →
      ∃ f, validate (.pyInt y) (.pyInt m) (.pyInt d) .pyNone .pyNone .pyNone = .ok f) ∧
    exceptIsOk (fromText "2020.02.29") = true ∧
    fromText "2019.02.29" = .error .invalidCalendarDate := by
  have hdmb : ((Comp.pyInt d).truthy && !(Comp.pyInt m).truthy) = false := by
    by_cases hd : d = 0
    · subst hd
      rfl
    · have hm := hdm hd
      simp [Comp.truthy, hd, hm]
  refine ⟨?_, ?_, by rfl, by rfl⟩
  · intro hbad
    exact C5_badDate_core y m d hy1 hy2 hdmb hbad
  · intro hgood
    refine ⟨_, validate_ok_noTime (.pyInt y) (.pyInt m) (.pyInt d) .pyNone .pyNone .pyNone
      y (if m = 0 then none else some m) (if d = 0 then none else some d)
      (pyInt_truthy (by omega)) rfl (coerceMD_int_canon m) (coerceMD_int_canon d)
      hdmb hy1 hy2 ?_ rfl rfl rfl⟩
    rw [substM, substM]
    exact hgood

/-- C5 witness: February 29 on the non-leap year 2021 is rejected by the
calendar check, and on the leap year 2020 construction succeeds. -/
theorem C5_calendar_substitution_witness :
    (validate (.pyInt 2021) (.pyInt 2) (.pyInt 29) .pyNone .pyNone .pyNone
      = .error .invalidCalendarDate) ∧
    (∃ f, validate (.pyInt 2020) (.pyInt 2) (.pyInt 29) .pyNone .pyNone .pyNone = .ok f) :=
  ⟨(C5_calendar_substitution 2021 2 29 (by decide) (by decide) (fun _ => by decide)).1
      (by decide),
   (C5_calendar_substitution 2020 2 29 (by decide) (by decide) (fun _ => by decide)).2.1
      (by decide)⟩

/-- C9 counterexample: a naive datetime (tzinfo None) with year 999 IS
rejected — by the year-range rule — so a naive timestamp is not always
accepted, and non-UTC-unnamed-tzinfo is not the only rejection cause. -/
theorem C9_counterexample :
    fromDatetime ⟨999, 1, 1, 0, 0, none⟩ = .error .yearOutOfRange := rfl

/-- C9 amended: a datetime seed with tzinfo None is handled exactly like
one carrying the UTC singleton: the zone stored is "Etc/UTC", and
construction succeeds whenever the datetime's fields are valid and its
year is at least 1000 (the year-range rule still applies); a tzinfo
lacking a key that is not UTC is rejected with the
datetime-timezone error. -/
theorem C9_naive_datetime (dt : PyDatetime) :
    (dt.tzinfo = none →
      fromDatetime dt = fromDatetime ⟨dt.year, dt.month, dt.day, dt.hour, dt.minute,
        some .utc⟩) ∧
    (dt.tzinfo = none → isValidDate dt.year dt.month dt.day = true →
      0 ≤ dt.hour → dt.hour < 24 → 0 ≤ dt.minute → dt.minute < 60 → 1000 ≤ dt.year →
      ∃ f, fromDatetime dt = .ok f ∧ f.tz = .pyStr "Etc/UTC") ∧
    (dt.tzinfo = some .unnamed → fromDatetime dt = .error .badDatetimeTz) := by
  refine ⟨?_, ?_, ?_⟩
  · intro h
    simp [fromDatetime, dtKey, h]
  · intro h hvd hh0 hh24 hmn0 hmn60 hy1000
    have hfacts := of_decide_eq_true hvd
    have hm0 : dt.month ≠ 0 := by omega
    have hd0 : dt.day ≠ 0 := by omega
    have hdm : ((Comp.pyInt dt.day).truthy && !(Comp.pyInt dt.month).truthy) = false := by
      simp [Comp.truthy, hm0]
    have hvd2 : isValidDate dt.year ((some dt.month).getD 1) ((some dt.day).getD 1) = true := by
      rw [show (some dt.month).getD 1 = dt.month from rfl,
        show (some dt.day).getD 1 = dt.day from rfl]
      exact hvd
    have hkey := validate_ok_time (.pyInt dt.year) (.pyInt dt.month) (.pyInt dt.day)
      (.pyInt dt.hour) (.pyInt dt.minute) "Etc/UTC"
      dt.year (some dt.month) (some dt.day) dt.hour dt.minute
      (pyInt_truthy (by omega)) rfl (coerceMD_int hm0) (coerceMD_int hd0)
      hdm hy1000 (by omega) hvd2 rfl rfl rfl rfl rfl
      hh0 hh24 hmn0 hmn60 (by decide) (by decide)
    refine ⟨⟨ymdBase dt.year (some dt.month) (some dt.day) ++
        timeSuffix dt.hour dt.minute "Etc/UTC",
        .pyStr (formatPad 4 dt.year), .pyStr (attrM (some dt.month)),
        .pyStr (attrM (some dt.day)), .pyStr (formatPad 2 dt.hour),
        .pyStr (formatPad 2 dt.minute), .pyStr "Etc/UTC"⟩, ?_, rfl⟩
    unfold fromDatetime
    rw [h]
    rw [show dtKey none = .ok "Etc/UTC" from rfl]
    exact hkey
  · intro h
    simp [fromDatetime, dtKey, h]

/-- C9 witness at a concrete naive datetime and a concrete keyless
non-UTC tzinfo. -/
theorem C9_naive_datetime_witness :
    (fromDatetime ⟨2020, 5, 15, 10, 30, none⟩
      = fromDatetime ⟨2020, 5, 15, 10, 30, some .utc⟩) ∧
    (∃ f, fromDatetime ⟨2020, 5, 15, 10, 30, none⟩ = .ok f ∧ f.tz = .pyStr "Etc/UTC") ∧
    (fromDatetime ⟨2020, 5, 15, 10, 30, some .unnamed⟩ = .error .badDatetimeTz) :=
  ⟨(C9_naive_datetime ⟨2020, 5, 15, 10, 30, none⟩).1 rfl,
   (C9_naive_datetime ⟨2020, 5, 15, 10, 30, none⟩).2.1 rfl (by decide) (by decide)
     (by decide) (by decide) (by decide) (by decide),
   (C9_naive_datetime ⟨2020, 5, 15, 10, 30, some .unnamed⟩).2.2 rfl⟩

theorem attrM_eq_empty_iff (mo : Option Int) : attrM mo = "" ↔ mo = none := by
  cases mo with
  | none => simp [attrM]
  | some m => simp [attrM, formatPad_ne_empty]

theorem cmp_m00 : ∀ m : Nat, m < 13 → 1 ≤ m →
    ("." ++ "00" ++ "." ++ "00" : String).data
      < ("." ++ formatPad 2 (m : Int) ++ "." ++ "00").data := by
  decide

theorem cmp_md : ∀ m : Nat, m < 13 → 1 ≤ m → ∀ d : Nat, d < 32 → 1 ≤ d →
    ("." ++ formatPad 2 (m : Int) ++ "." ++ "00").data
      < ("." ++ formatPad 2 (m : Int) ++ "." ++ formatPad 2 (d : Int)).data := by
  decide

theorem cmp_00_m : ∀ m : Nat, m < 13 → 1 ≤ m →
    ("00" : String).data < (formatPad 2 (m : Int)).data := by
  decide

theorem cmp_00_d : ∀ d : Nat, d < 32 → 1 ≤ d →
    ("00" : String).data < (formatPad 2 (d : Int)).data := by
  decide

theorem timeSuffix_ne_empty (h mn : Int) (z : String) : timeSuffix h mn z ≠ "" := by
  intro hc
  have hd := congrArg String.data hc
  simp [timeSuffix, String.data_append] at hd

/-- C2: among validly constructed values sharing their leading
components, the canonical encodings order by precision under plain
string comparison: year-only before year+month before year+month+day
before year+month+day+time; and the "00" placeholder sorts below every
real month (01-12) and day (01-31) encoding. -/
theorem C2_ordering_monotonicity :
    (∀ (a1 b1 c1 d1 e1 f1 a2 b2 c2 d2 e2 f2 : Comp)
       (a3 b3 c3 d3 e3 f3 a4 b4 c4 d4 e4 f4 : Comp)
       (v1 v2 v3 v4 : FuzzyDate),
      validate a1 b1 c1 d1 e1 f1 = .ok v1 →
      validate a2 b2 c2 d2 e2 f2 = .ok v2 →
      validate a3 b3 c3 d3 e3 f3 = .ok v3 →
      validate a4 b4 c4 d4 e4 f4 = .ok v4 →
      v1.base ≠ "" → v2.base ≠ "" → v3.base ≠ "" → v4.base ≠ "" →
      v1.month = .pyStr "" → v1.day = .pyStr "" →
      v2.month ≠ .pyStr "" → v2.day = .pyStr "" →
      v3.month ≠ .pyStr "" → v3.day ≠ .pyStr "" → v3.hour.isAbsent = true →
      v4.hour.isAbsent = false →
      v2.year = v1.year → v3.year = v1.year → v4.year = v1.year →
      v3.month = v2.month → v4.month = v3.month → v4.day = v3.day →
      v1.base < v2.base ∧ v2.base < v3.base ∧ v3.base < v4.base) ∧
    (∀ m : Nat, 1 ≤ m → m ≤ 12 → ("00" : String) < formatPad 2 (m : Int)) ∧
    (∀ d : Nat, 1 ≤ d → d ≤ 31 → ("00" : String) < formatPad 2 (d : Int)) := by
  refine ⟨?_, ?_, ?_⟩
  · intro a1 b1 c1 d1 e1 f1 a2 b2 c2 d2 e2 f2 a3 b3 c3 d3 e3 f3 a4 b4 c4 d4 e4 f4
      v1 v2 v3 v4 hok1 hok2 hok3 hok4 hne1 hne2 hne3 hne4
      hm1 hd1 hm2 hd2 hm3 hd3 hh3 hh4 hy21 hy31 hy41 hm32 hm43 hd43
    obtain ⟨y1, mo1, do1, t1, -, -, hyear1, hmonth1, hday1, -, -, htd1, hbase1, -, -⟩ :=
      (validate_inv hok1).resolve_left (fun hcon => hne1 (by rw [hcon.1]))
    obtain ⟨y2, mo2, do2, t2, -, -, hyear2, hmonth2, hday2, hmb2, -, htd2, hbase2, -, -⟩ :=
      (validate_inv hok2).resolve_left (fun hcon => hne2 (by rw [hcon.1]))
    obtain ⟨y3, mo3, do3, t3, -, -, hyear3, hmonth3, hday3, hmb3, hdb3, htd3, hbase3,
      hclock3, -⟩ := (validate_inv hok3).resolve_left (fun hcon => hne3 (by rw [hcon.1]))
    obtain ⟨y4, mo4, do4, t4, -, -, hyear4, hmonth4, hday4, -, -, -, hbase4, -, habs4⟩ :=
      (validate_inv hok4).resolve_left (fun hcon => hne4 (by rw [hcon.1]))
    -- v1 components
    have hmo1 : mo1 = none := by
      rw [hmonth1] at hm1
      exact (attrM_eq_empty_iff mo1).mp (Comp.pyStr.inj hm1)
    have hdo1 : do1 = none := by
      rw [hday1] at hd1
      exact (attrM_eq_empty_iff do1).mp (Comp.pyStr.inj hd1)
    have ht1 : t1 = none := by
      cases ht : t1 with
      | none => rfl
      | some p =>
        have := htd1 (by rw [ht]; rfl)
        rw [hdo1] at this
        simp at this
    -- v2 components
    obtain ⟨m2, hmo2⟩ : ∃ m, mo2 = some m := by
      cases hmo : mo2 with
      | none =>
        rw [hmonth2, hmo] at hm2
        exact absurd (by simp [attrM]) hm2
      | some m => exact ⟨m, rfl⟩
    have hdo2 : do2 = none := by
      rw [hday2] at hd2
      exact (attrM_eq_empty_iff do2).mp (Comp.pyStr.inj hd2)
    have ht2 : t2 = none := by
      cases ht : t2 with
      | none => rfl
      | some p =>
        have := htd2 (by rw [ht]; rfl)
        rw [hdo2] at this
        simp at this
    obtain ⟨hm2a, hm2b⟩ := hmb2 m2 hmo2
    -- v3 components
    obtain ⟨m3, hmo3⟩ : ∃ m, mo3 = some m := by
      cases hmo : mo3 with
      | none =>
        rw [hmonth3, hmo] at hm3
        exact absurd (by simp [attrM]) hm3
      | some m => exact ⟨m, rfl⟩
    obtain ⟨d3, hdo3⟩ : ∃ d, do3 = some d := by
      cases hdo : do3 with
      | none =>
        rw [hday3, hdo] at hd3
        exact absurd (by simp [attrM]) hd3
      | some d => exact ⟨d, rfl⟩
    have ht3 : t3 = none := by
      cases ht : t3 with
      | none => rfl
      | some p =>
        obtain ⟨hh, mnn, zz⟩ := p
        obtain ⟨-, -, -, -, -, -, hhour3, -, -⟩ := hclock3 hh mnn zz ht
        rw [hhour3] at hh3
        simp [Comp.isAbsent, formatPad_ne_empty] at hh3
    obtain ⟨hd3a, hd3b⟩ := hdb3 d3 hdo3
    have hd3c : d3 ≤ 31 := le_trans hd3b (daysInMonth_le31 _ _)
    -- v4 time block
    obtain ⟨p4, ht4⟩ : ∃ p, t4 = some p := by
      cases ht : t4 with
      | none =>
        obtain ⟨hh, -, -⟩ := habs4 ht
        rw [hh4] at hh
        cases hh
      | some p => exact ⟨p, rfl⟩
    obtain ⟨h4, mn4, z4⟩ := p4
    -- year and month string agreement
    rw [hyear1] at hy21 hy31 hy41
    rw [hyear2] at hy21
    rw [hyear3] at hy31
    rw [hyear4] at hy41
    have hy2s : formatPad 4 y2 = formatPad 4 y1 := Comp.pyStr.inj hy21
    have hy3s : formatPad 4 y3 = formatPad 4 y1 := Comp.pyStr.inj hy31
    have hy4s : formatPad 4 y4 = formatPad 4 y1 := Comp.pyStr.inj hy41
    rw [hmonth2, hmonth3] at hm32
    rw [hmonth3, hmonth4] at hm43
    rw [hday3, hday4] at hd43
    rw [hmo2, hmo3] at hm32
    rw [hmo3] at hm43
    rw [hdo3] at hd43
    have hm32s : formatPad 2 m3 = formatPad 2 m2 := Comp.pyStr.inj hm32
    have hm43s : attrM mo4 = formatPad 2 m3 := by
      have := Comp.pyStr.inj hm43
      simpa [attrM] using this
    have hd43s : attrM do4 = formatPad 2 d3 := by
      have := Comp.pyStr.inj hd43
      simpa [attrM] using this
    -- canonical bases
    have hb1 : v1.base = formatPad 4 y1 ++ ("." ++ "00" ++ "." ++ "00") := by
      rw [hbase1, hmo1, hdo1, ht1]
      simp [ymdBase, fmtM, String.append_assoc]
    have hb2 : v2.base = formatPad 4 y1 ++ ("." ++ formatPad 2 m2 ++ "." ++ "00") := by
      rw [hbase2, hmo2, hdo2, ht2]
      simp [ymdBase, fmtM, hy2s, String.append_assoc]
    have hb3 : v3.base = formatPad 4 y1 ++ ("." ++ formatPad 2 m2 ++ "." ++ formatPad 2 d3) := by
      rw [hbase3, hmo3, hdo3, ht3]
      simp [ymdBase, fmtM, hy3s, hm32s, String.append_assoc]
    have hb4 : v4.base = v3.base ++ timeSuffix h4 mn4 z4 := by
      rw [hbase4, ht4, hb3]
      have hfm : fmtM mo4 = formatPad 2 m2 := by
        cases hmo : mo4 with
        | none =>
          rw [hmo] at hm43s
          simp only [attrM, Option.elim] at hm43s
          exact absurd hm43s.symm (formatPad_ne_empty 2 m3)
        | some m =>
          rw [hmo] at hm43s
          simp only [attrM, Option.elim] at hm43s
          simp only [fmtM, Option.elim]
          rw [hm43s, hm32s]
      have hfd : fmtM do4 = formatPad 2 d3 := by
        cases hdo : do4 with
        | none =>
          rw [hdo] at hd43s
          simp only [attrM, Option.elim] at hd43s
          exact absurd hd43s.symm (formatPad_ne_empty 2 d3)
        | some d =>
          rw [hdo] at hd43s
          simp only [attrM, Option.elim] at hd43s
          simp only [fmtM, Option.elim]
          rw [hd43s]
      simp [ymdBase, timeSuffix, hfm, hfd, hy4s, String.append_assoc]
    -- bounds as naturals
    have hm2n : ((m2.toNat : Nat) : Int) = m2 := Int.toNat_of_nonneg (by omega)
    have hd3n : ((d3.toNat : Nat) : Int) = d3 := Int.toNat_of_nonneg (by omega)
    refine ⟨?_, ?_, ?_⟩
    · rw [hb1, hb2]
      apply strLt_append
      rw [String.lt_iff_toList_lt]
      have hcmp := cmp_m00 m2.toNat (by omega) (by omega)
      rw [hm2n] at hcmp
      exact hcmp
    · rw [hb2, hb3]
      apply strLt_append
      rw [String.lt_iff_toList_lt]
      have hcmp := cmp_md m2.toNat (by omega) (by omega) d3.toNat (by omega) (by omega)
      rw [hm2n, hd3n] at hcmp
      exact hcmp
    · rw [hb4]
      exact strLt_extend v3.base _ (timeSuffix_ne_empty h4 mn4 z4)
  · intro m hm1 hm2
    rw [String.lt_iff_toList_lt]
    exact cmp_00_m m (by omega) hm1
  · intro d hd1 hd2
    rw [String.lt_iff_toList_lt]
    exact cmp_00_d d (by omega) hd1

theorem C2_ordering_monotonicity_witness :
    ("2020.00.00" : String) < "2020.05.00" ∧
    ("2020.05.00" : String) < "2020.05.17" ∧
    ("2020.05.17" : String) < "2020.05.17 03:07 America/Chicago" :=
  C2_ordering_monotonicity.1
    (.pyInt 2020) .pyNone .pyNone .pyNone .pyNone .pyNone
    (.pyInt 2020) (.pyInt 5) .pyNone .pyNone .pyNone .pyNone
    (.pyInt 2020) (.pyInt 5) (.pyInt 17) .pyNone .pyNone .pyNone
    (.pyInt 2020) (.pyInt 5) (.pyInt 17) (.pyInt 3) (.pyInt 7) (.pyStr "America/Chicago")
    ⟨"2020.00.00", .pyStr "2020", .pyStr "", .pyStr "", .pyNone, .pyNone, .pyNone⟩
    ⟨"2020.05.00", .pyStr "2020", .pyStr "05", .pyStr "", .pyNone, .pyNone, .pyNone⟩
    ⟨"2020.05.17", .pyStr "2020", .pyStr "05", .pyStr "17", .pyNone, .pyNone, .pyNone⟩
    ⟨"2020.05.17 03:07 America/Chicago", .pyStr "2020", .pyStr "05", .pyStr "17",
      .pyStr "03", .pyStr "07", .pyStr "America/Chicago"⟩
    (by rfl) (by rfl) (by rfl) (by rfl)
    (by decide) (by decide) (by decide) (by decide)
    (by decide) (by decide) (by decide) (by decide)
    (by decide) (by decide) (by decide) (by decide)
    (by decide) (by decide) (by decide) (by decide) (by decide) (by decide)

/-- C7 counterexample: the kwargs m="00", d=5 construct a validly
constructed value "2020.00.05" whose day attribute is present ("05") while
the month attribute is empty; it is not fuzzy, yet to_date raises
(int("") on the month) instead of returning a calendar date.  Moreover the
claim's own example fromText("2020") does not construct at all: the
source's DATE_PATTERN requires the month group. -/
theorem C7_counterexample :
    validate (.pyInt 2020) (.pyStr "00") (.pyInt 5) .pyNone .pyNone .pyNone =
      .ok ⟨"2020.00.05", .pyStr "2020", .pyStr "", .pyStr "05", .pyNone, .pyNone, .pyNone⟩ ∧
    FuzzyDate.is_fuzzy
      ⟨"2020.00.05", .pyStr "2020", .pyStr "", .pyStr "05", .pyNone, .pyNone, .pyNone⟩ = false ∧
    FuzzyDate.to_date
      ⟨"2020.00.05", .pyStr "2020", .pyStr "", .pyStr "05", .pyNone, .pyNone, .pyNone⟩ =
      .error .conversionFailure ∧
    fromText "2020" = .error .malformedInput :=
  ⟨rfl, rfl, rfl, rfl⟩

/-- C7 (amended): for a validly constructed value whose day attribute is
not None and which is not the month-absent/day-present anomaly, to_date
returns the not-available result exactly when the value is fuzzy, and
otherwise returns the calendar date read back from the year, month and day
attributes, within the validated bounds. -/
theorem C7_conversion_availability :
    ∀ (a b c d e g : Comp) (v : FuzzyDate),
      validate a b c d e g = .ok v →
      v.day ≠ .pyNone →
      (v.day ≠ .pyStr "" → v.month ≠ .pyStr "") →
      ((v.to_date = .ok none) ↔ v.is_fuzzy = true) ∧
      (v.is_fuzzy = false →
        ∃ y m dd, v.to_date = .ok (some ⟨y, m, dd⟩) ∧
          v.year = .pyStr (formatPad 4 y) ∧ v.month = .pyStr (formatPad 2 m) ∧
          v.day = .pyStr (formatPad 2 dd) ∧ 1000 ≤ y ∧ y ≤ 9999 ∧ 1 ≤ m ∧ m ≤ 12 ∧
          1 ≤ dd ∧ dd ≤ daysInMonth y m) := by
  intro a b c d e g v hok hdn hdm
  rcases validate_inv hok with ⟨hv, -, -, hdabs, -, -, -⟩ | hinv
  · subst hv
    have hday : c = .pyStr "" := by
      cases c with
      | pyNone => exact absurd rfl hdn
      | pyStr s =>
        simp only [Comp.isAbsent] at hdabs
        by_cases hs : s = ""
        · rw [hs]
        · rw [if_neg hs] at hdabs; cases hdabs
      | pyInt n => simp [Comp.isAbsent] at hdabs
    have hfz : FuzzyDate.is_fuzzy ⟨"", a, b, c, d, e, g⟩ = true := by
      simp [FuzzyDate.is_fuzzy, hday]
    refine ⟨by simp [FuzzyDate.to_date, hfz], ?_⟩
    intro hc; rw [hfz] at hc; cases hc
  · obtain ⟨y, mo, dayo, t, hy1, hy2, hyear, hmonth, hday, hmb, hdb, -, -, -, -⟩ := hinv
    cases hdo : dayo with
    | none =>
      rw [hdo] at hday
      have hday' : v.day = .pyStr "" := by simpa [attrM] using hday
      have hfz : v.is_fuzzy = true := by simp [FuzzyDate.is_fuzzy, hday']
      refine ⟨by simp [FuzzyDate.to_date, hfz], ?_⟩
      intro hc; rw [hfz] at hc; cases hc
    | some dd =>
      rw [hdo] at hday hdb
      have hday' : v.day = .pyStr (formatPad 2 dd) := by simpa [attrM] using hday
      have hdne : v.day ≠ .pyStr "" := by
        rw [hday']; intro hc; exact formatPad_ne_empty 2 dd (Comp.pyStr.inj hc)
      have hfz : v.is_fuzzy = false := by
        simp [FuzzyDate.is_fuzzy, hday', formatPad_ne_empty]
      have hmne := hdm hdne
      rw [hmonth] at hmne
      obtain ⟨m, hmo⟩ : ∃ m, mo = some m := by
        cases hmo : mo with
        | none => rw [hmo] at hmne; exact absurd (by simp [attrM]) hmne
        | some m => exact ⟨m, rfl⟩
      obtain ⟨hm1, hm2⟩ := hmb m hmo
      obtain ⟨hd1, hd2⟩ := hdb dd rfl
      rw [hmo] at hd2 hmonth
      have hmonth' : v.month = .pyStr (formatPad 2 m) := by simpa [attrM] using hmonth
      have hd2' : dd ≤ daysInMonth y m := by simpa using hd2
      have hvd : isValidDate y m dd = true := by
        simp only [isValidDate, decide_eq_true_eq]
        exact ⟨by omega, hy2, hm1, hm2, hd1, hd2'⟩
      have hto_eq : v.to_date = .ok (some ⟨y, m, dd⟩) := by
        rw [FuzzyDate.to_date]
        simp only [hfz, Bool.false_eq_true, if_false]
        rw [hyear, hmonth', hday']
        simp only [pyIntOf, pyIntStr_formatPad]
        rw [if_pos hvd]
      refine ⟨⟨fun hto => ?_, fun hc => by rw [hfz] at hc; cases hc⟩, fun _ => ?_⟩
      · rw [hto_eq] at hto
        simp at hto
      · exact ⟨y, m, dd, hto_eq, hyear, hmonth', hday', hy1, hy2, hm1, hm2, hd1, hd2'⟩

theorem C7_conversion_availability_witness :
    ((FuzzyDate.to_date
        ⟨"2020.05.17", .pyStr "2020", .pyStr "05", .pyStr "17", .pyNone, .pyNone, .pyNone⟩ =
        .ok none) ↔
      FuzzyDate.is_fuzzy
        ⟨"2020.05.17", .pyStr "2020", .pyStr "05", .pyStr "17", .pyNone, .pyNone, .pyNone⟩ = true) ∧
    (FuzzyDate.is_fuzzy
        ⟨"2020.05.17", .pyStr "2020", .pyStr "05", .pyStr "17", .pyNone, .pyNone, .pyNone⟩ = false →
      ∃ y m dd,
        FuzzyDate.to_date
          ⟨"2020.05.17", .pyStr "2020", .pyStr "05", .pyStr "17", .pyNone, .pyNone, .pyNone⟩ =
          .ok (some ⟨y, m, dd⟩) ∧
        FuzzyDate.year
          ⟨"2020.05.17", .pyStr "2020", .pyStr "05", .pyStr "17", .pyNone, .pyNone, .pyNone⟩ =
          .pyStr (formatPad 4 y) ∧
        FuzzyDate.month
          ⟨"2020.05.17", .pyStr "2020", .pyStr "05", .pyStr "17", .pyNone, .pyNone, .pyNone⟩ =
          .pyStr (formatPad 2 m) ∧
        FuzzyDate.day
          ⟨"2020.05.17", .pyStr "2020", .pyStr "05", .pyStr "17", .pyNone, .pyNone, .pyNone⟩ =
          .pyStr (formatPad 2 dd) ∧ 1000 ≤ y ∧ y ≤ 9999 ∧ 1 ≤ m ∧ m ≤ 12 ∧
        1 ≤ dd ∧ dd ≤ daysInMonth y m) :=
  C7_conversion_availability (.pyInt 2020) (.pyInt 5) (.pyInt 17) .pyNone .pyNone .pyNone
    ⟨"2020.05.17", .pyStr "2020", .pyStr "05", .pyStr "17", .pyNone, .pyNone, .pyNone⟩
    (by rfl) (by decide) (fun _ => by decide)

theorem listLe_append (p : List Char) {a b : List Char} (h : a ≤ b) : p ++ a ≤ p ++ b := by
  rw [← not_lt] at h ⊢
  intro hlt
  exact h (listLt_strip p hlt)

theorem lex_append_of_ne {a b : List Char} (c d : List Char) (hlen : a.length = b.length)
    (h : a < b) : a ++ c < b ++ d := by
  induction a generalizing b with
  | nil =>
    cases b with
    | nil => exact absurd h (lt_irrefl _)
    | cons y ys => simp at hlen
  | cons x xs ih =>
    cases b with
    | nil => cases h
    | cons y ys =>
      cases h with
      | rel hr => exact List.Lex.rel hr
      | cons h2 =>
        show (x :: (xs ++ c)) < (x :: (ys ++ d))
        exact List.Lex.cons (ih (by simpa using hlen) h2)

theorem fmt2_lt_mono : ∀ a : Nat, a < 32 → ∀ b : Nat, b < 32 → a < b →
    (formatPad 2 (a : Int)).data < (formatPad 2 (b : Int)).data := by decide

theorem fmt2_len2 : ∀ a : Nat, a < 32 → (formatPad 2 (a : Int)).data.length = 2 := by decide

theorem fmt2_lt_monoI {a b : Int} (h0 : 0 ≤ a) (hb : b ≤ 31) (hab : a < b) :
    (formatPad 2 a).data < (formatPad 2 b).data := by
  have ha : ((a.toNat : Nat) : Int) = a := Int.toNat_of_nonneg h0
  have hb2 : ((b.toNat : Nat) : Int) = b := Int.toNat_of_nonneg (by omega)
  rw [← ha, ← hb2]
  exact fmt2_lt_mono a.toNat (by omega) b.toNat (by omega) (by omega)

theorem fmt2_le_monoI {a b : Int} (h0 : 0 ≤ a) (hb : b ≤ 31) (hab : a ≤ b) :
    (formatPad 2 a).data ≤ (formatPad 2 b).data := by
  rcases lt_or_eq_of_le hab with hlt | heq
  · exact le_of_lt (fmt2_lt_monoI h0 hb hlt)
  · subst heq
    exact le_refl _

theorem fmt2_len2I {a : Int} (h0 : 0 ≤ a) (ha : a ≤ 31) :
    (formatPad 2 a).data.length = 2 := by
  have h := Int.toNat_of_nonneg h0
  rw [← h]
  exact fmt2_len2 a.toNat (by omega)

theorem dot_data : ("." : String).data = ['.'] := rfl

theorem ymdBase_toList (y m d : Int) :
    (ymdBase y (some m) (some d)).toList
      = (formatPad 4 y).data ++ '.' :: ((formatPad 2 m).data ++ '.' :: (formatPad 2 d).data) := by
  show (ymdBase y (some m) (some d)).data = _
  simp [ymdBase, fmtM, String.data_append, dot_data]

theorem ymd_le (y m1 d1 m2 d2 : Int)
    (h0m1 : 0 ≤ m1) (h0d1 : 0 ≤ d1) (hm2 : m2 ≤ 31) (hd2 : d2 ≤ 31)
    (hord : m1 < m2 ∨ (m1 = m2 ∧ d1 ≤ d2)) :
    ymdBase y (some m1) (some d1) ≤ ymdBase y (some m2) (some d2) := by
  rw [String.le_iff_toList_le, ymdBase_toList, ymdBase_toList]
  rcases hord with hlt | ⟨heq, hdle⟩
  · apply le_of_lt
    apply listLt_append
    exact List.Lex.cons (lex_append_of_ne _ _
      (by rw [fmt2_len2I h0m1 (by omega), fmt2_len2I (by omega) hm2])
      (fmt2_lt_monoI h0m1 hm2 hlt))
  · subst heq
    have hsplit : ∀ dd : List Char,
        (formatPad 4 y).data ++ '.' :: ((formatPad 2 m1).data ++ '.' :: dd)
          = ((formatPad 4 y).data ++ '.' :: (formatPad 2 m1).data ++ ['.']) ++ dd := by
      intro dd
      simp
    rw [hsplit, hsplit]
    exact listLe_append _ (fmt2_le_monoI h0d1 hd2 hdle)

theorem pyStrOfInt_daysInMonth (y m : Int) :
    pyStrOfInt (daysInMonth y m) = formatPad 2 (daysInMonth y m) := by
  rcases daysInMonth_mem y m with h | h | h | h <;> rw [h] <;> rfl

theorem pyNorm_str (s : String) : pyNorm (.pyStr s) = .pyStr s := by
  simp [pyNorm]

theorem truthy_empty : (Comp.pyStr "").truthy = false := by decide

theorem truthy_fmt (w : Nat) (n : Int) : (Comp.pyStr (formatPad w n)).truthy = true :=
  pyStr_truthy (formatPad_ne_empty w n)

theorem fromKwargs_noTime (y ms ds : Int)
    (hy1 : 1000 ≤ y) (hy2 : y ≤ 9999) (hm1 : 1 ≤ ms) (hm2 : ms ≤ 12)
    (hd1 : 1 ≤ ds) (hd2 : ds ≤ daysInMonth y ms) :
    fromKwargs (.pyStr (formatPad 4 y)) (.pyStr (formatPad 2 ms)) (.pyStr (formatPad 2 ds))
        (.pyStr "") (.pyStr "") (.pyStr "") =
      .ok ⟨ymdBase y (some ms) (some ds), .pyStr (formatPad 4 y), .pyStr (formatPad 2 ms),
           .pyStr (formatPad 2 ds), .pyStr "", .pyStr "", .pyStr ""⟩ := by
  unfold fromKwargs
  simp only [pyNorm_str]
  exact validate_ok_noTime (.pyStr (formatPad 4 y)) (.pyStr (formatPad 2 ms))
    (.pyStr (formatPad 2 ds)) (.pyStr "") (.pyStr "") (.pyStr "") y (some ms) (some ds)
    (pyStr_truthy (formatPad_ne_empty 4 y))
    (pyIntStr_formatPad 4 y)
    (coerceMD_fmt (by omega))
    (coerceMD_fmt (by omega))
    (by simp [truthy_fmt])
    hy1 hy2
    (isValidDate_true (by omega) hy2 hm1 hm2 hd1 hd2)
    rfl rfl rfl

theorem get_range_canon (v : FuzzyDate) (y : Int) (mo dayo : Option Int)
    (hyear : v.year = .pyStr (formatPad 4 y))
    (hmonth : v.month = .pyStr (attrM mo))
    (hday : v.day = .pyStr (attrM dayo))
    (hy1 : 1000 ≤ y) (hy2 : y ≤ 9999)
    (hmb : ∀ m, mo = some m → 1 ≤ m ∧ m ≤ 12)
    (hdb : ∀ d, dayo = some d → 1 ≤ d ∧ d ≤ daysInMonth y (mo.getD 1)) :
    v.get_range = .ok
      (⟨ymdBase y (some (mo.getD 1)) (some (dayo.getD 1)), .pyStr (formatPad 4 y),
        .pyStr (formatPad 2 (mo.getD 1)), .pyStr (formatPad 2 (dayo.getD 1)),
        .pyStr "", .pyStr "", .pyStr ""⟩,
       ⟨ymdBase y (some (mo.getD 12)) (some (dayo.getD (daysInMonth y (mo.getD 12)))),
        .pyStr (formatPad 4 y), .pyStr (formatPad 2 (mo.getD 12)),
        .pyStr (formatPad 2 (dayo.getD (daysInMonth y (mo.getD 12)))),
        .pyStr "", .pyStr "", .pyStr ""⟩) := by
  cases mo with
  | none =>
    cases dayo with
    | none =>
      simp only [attrM, Option.elim] at hmonth hday
      have hs := fromKwargs_noTime y 1 1 hy1 hy2 (by omega) (by omega) (by omega)
        (daysInMonth_pos y 1)
      have he := fromKwargs_noTime y 12 31 hy1 hy2 (by omega) (by omega) (by omega)
        (by rw [daysInMonth_twelve])
      have hc12 : (decide ((1 : Int) ≤ 12) && decide ((12 : Int) ≤ 12)) = true := by decide
      unfold FuzzyDate.get_range
      rw [hmonth, hday, hyear]
      simp only [truthy_empty, Bool.false_eq_true, if_false, pyIntOf, pyIntStr_formatPad,
        hc12, if_true]
      rw [show pyIntStr "12" = some (12 : Int) from rfl]
      simp only [pyStrOfInt_daysInMonth, daysInMonth_twelve, Option.getD]
      rw [show (Comp.pyStr "01") = Comp.pyStr (formatPad 2 (1 : Int)) from rfl,
        show (Comp.pyStr "12") = Comp.pyStr (formatPad 2 (12 : Int)) from rfl]
      rw [hs]
      rw [hc12, if_pos rfl]
      rw [show pyStrOfInt (31 : Int) = formatPad 2 (31 : Int) from rfl]
      simp only []
      rw [he]
    | some d =>
      simp only [attrM, Option.elim] at hmonth hday
      obtain ⟨hd1, hd2⟩ := hdb d rfl
      simp only [Option.getD] at hd2
      have hs := fromKwargs_noTime y 1 d hy1 hy2 (by omega) (by omega) hd1
        (by rw [daysInMonth_one]; rw [daysInMonth_one] at hd2; omega)
      have he := fromKwargs_noTime y 12 d hy1 hy2 (by omega) (by omega) hd1
        (by rw [daysInMonth_twelve]; rw [daysInMonth_one] at hd2; omega)
      unfold FuzzyDate.get_range
      rw [hmonth, hday, hyear]
      simp only [truthy_empty, truthy_fmt, Bool.false_eq_true, if_false, if_true,
        Option.getD]
      rw [show (Comp.pyStr "01") = Comp.pyStr (formatPad 2 (1 : Int)) from rfl,
        show (Comp.pyStr "12") = Comp.pyStr (formatPad 2 (12 : Int)) from rfl]
      rw [hs, he]
  | some m =>
    obtain ⟨hm1, hm2⟩ := hmb m rfl
    cases dayo with
    | none =>
      simp only [attrM, Option.elim] at hmonth hday
      have hcm : (decide (1 ≤ m) && decide (m ≤ 12)) = true := by
        simp [hm1, hm2]
      have hs := fromKwargs_noTime y m 1 hy1 hy2 hm1 hm2 (by omega) (daysInMonth_pos y m)
      have he := fromKwargs_noTime y m (daysInMonth y m) hy1 hy2 hm1 hm2
        (daysInMonth_pos y m) (le_refl _)
      unfold FuzzyDate.get_range
      rw [hmonth, hday, hyear]
      simp only [truthy_empty, truthy_fmt, Bool.false_eq_true, if_false, if_true,
        pyIntOf, pyIntStr_formatPad, hcm, pyStrOfInt_daysInMonth, Option.getD]
      rw [show (Comp.pyStr "01") = Comp.pyStr (formatPad 2 (1 : Int)) from rfl]
      rw [hs, he]
    | some d =>
      simp only [attrM, Option.elim] at hmonth hday
      obtain ⟨hd1, hd2⟩ := hdb d rfl
      simp only [Option.getD] at hd2
      have hs := fromKwargs_noTime y m d hy1 hy2 hm1 hm2 hd1 hd2
      unfold FuzzyDate.get_range
      rw [hmonth, hday, hyear]
      simp only [truthy_fmt, if_true, Option.getD]
      rw [hs]

theorem range_bound_aux (y : Int) (mo dayo : Option Int)
    (hmb : ∀ m, mo = some m → 1 ≤ m ∧ m ≤ 12)
    (hdb : ∀ d2, dayo = some d2 → 1 ≤ d2 ∧ d2 ≤ daysInMonth y (mo.getD 1))
    (mx dx : Int) (hmx1 : 1 ≤ mx) (hmx2 : mx ≤ 12) (hdx1 : 1 ≤ dx)
    (hdx2 : dx ≤ daysInMonth y mx)
    (hmeq : ∀ m, mo = some m → mx = m) (hdeq : ∀ d2, dayo = some d2 → dx = d2) :
    ymdBase y (some (mo.getD 1)) (some (dayo.getD 1)) ≤ ymdBase y (some mx) (some dx) ∧
    ymdBase y (some mx) (some dx)
      ≤ ymdBase y (some (mo.getD 12)) (some (dayo.getD (daysInMonth y (mo.getD 12)))) := by
  constructor
  · apply ymd_le
    · cases mo with
      | none => simp
      | some m => simp only [Option.getD]; exact le_trans (by omega) (hmb m rfl).1
    · cases dayo with
      | none => simp
      | some dv => simp only [Option.getD]; exact le_trans (by omega) (hdb dv rfl).1
    · omega
    · exact le_trans hdx2 (daysInMonth_le31 y mx)
    · cases mo with
      | some m =>
        simp only [Option.getD]
        right
        refine ⟨(hmeq m rfl).symm, ?_⟩
        cases dayo with
        | none => simp only [Option.getD]; omega
        | some dv => simp only [Option.getD]; rw [hdeq dv rfl]
      | none =>
        simp only [Option.getD]
        rcases lt_or_eq_of_le hmx1 with hlt | heq
        · left; omega
        · right
          refine ⟨heq, ?_⟩
          cases dayo with
          | none => simp only [Option.getD]; omega
          | some dv => simp only [Option.getD]; rw [hdeq dv rfl]
  · apply ymd_le
    · omega
    · omega
    · cases mo with
      | none => simp
      | some m => simp only [Option.getD]; exact le_trans (hmb m rfl).2 (by omega)
    · cases dayo with
      | none =>
        simp only [Option.getD]
        exact daysInMonth_le31 y _
      | some dv =>
        simp only [Option.getD]
        have h := (hdb dv rfl).2
        exact le_trans h (daysInMonth_le31 y _)
    · cases mo with
      | some m =>
        simp only [Option.getD]
        right
        refine ⟨hmeq m rfl, ?_⟩
        cases dayo with
        | none =>
          simp only [Option.getD]
          rw [hmeq m rfl] at hdx2
          exact hdx2
        | some dv => simp only [Option.getD]; rw [hdeq dv rfl]
      | none =>
        simp only [Option.getD]
        rcases lt_or_eq_of_le hmx2 with hlt | heq
        · left; exact hlt
        · right
          refine ⟨heq, ?_⟩
          cases dayo with
          | none =>
            simp only [Option.getD]
            rw [daysInMonth_twelve]
            exact le_trans hdx2 (daysInMonth_le31 y mx)
          | some dv => simp only [Option.getD]; rw [hdeq dv rfl]

/-- C3: for every non-empty validly constructed value, get_range returns a
pair of validated exact-precision (non-fuzzy) bounds: the start takes the
given month or 01 and the given day or 01; the end takes the given month
or 12, and the given day, or the leap-aware last day of the month when the
month is given, or 31 under month 12 when it is not.  Consequently every
exact-precision date (month and day present, no time block) that the value
could represent - same year, same month when one is specified, same day
when one is specified - lies between the two bounds in string order.  The
claim's examples evaluate as stated, leap year included. -/
theorem C3_range_expansion :
    (∀ (a b c d e g : Comp) (v : FuzzyDate),
      validate a b c d e g = .ok v → v.base ≠ "" →
      ∃ s en, v.get_range = .ok (s, en) ∧
        s.is_fuzzy = false ∧ en.is_fuzzy = false ∧
        s.year = v.year ∧ en.year = v.year ∧
        s.month = (if v.month = .pyStr "" then .pyStr "01" else v.month) ∧
        s.day = (if v.day = .pyStr "" then .pyStr "01" else v.day) ∧
        en.month = (if v.month = .pyStr "" then .pyStr "12" else v.month) ∧
        (v.day ≠ .pyStr "" → en.day = v.day) ∧
        (∀ yy mm : Int, v.day = .pyStr "" → v.year = .pyStr (formatPad 4 yy) →
          v.month = .pyStr (formatPad 2 mm) → 1 ≤ mm → mm ≤ 12 →
          en.day = .pyStr (formatPad 2 (daysInMonth yy mm))) ∧
        (v.day = .pyStr "" → v.month = .pyStr "" → en.day = .pyStr "31") ∧
        (∀ (a2 b2 c2 d2 e2 g2 : Comp) (x : FuzzyDate),
          validate a2 b2 c2 d2 e2 g2 = .ok x → x.base ≠ "" →
          x.month ≠ .pyStr "" → x.day ≠ .pyStr "" → x.hour.isAbsent = true →
          x.year = v.year →
          (v.month ≠ .pyStr "" → x.month = v.month) →
          (v.day ≠ .pyStr "" → x.day = v.day) →
          s.base ≤ x.base ∧ x.base ≤ en.base)) ∧
    fromText "2021.02" = .ok ⟨"2021.02.00", .pyStr "2021", .pyStr "02", .pyStr "",
      .pyNone, .pyNone, .pyNone⟩ ∧
    FuzzyDate.get_range ⟨"2021.02.00", .pyStr "2021", .pyStr "02", .pyStr "",
        .pyNone, .pyNone, .pyNone⟩ =
      .ok (⟨"2021.02.01", .pyStr "2021", .pyStr "02", .pyStr "01",
            .pyStr "", .pyStr "", .pyStr ""⟩,
           ⟨"2021.02.28", .pyStr "2021", .pyStr "02", .pyStr "28",
            .pyStr "", .pyStr "", .pyStr ""⟩) ∧
    fromText "2020.02" = .ok ⟨"2020.02.00", .pyStr "2020", .pyStr "02", .pyStr "",
      .pyNone, .pyNone, .pyNone⟩ ∧
    FuzzyDate.get_range ⟨"2020.02.00", .pyStr "2020", .pyStr "02", .pyStr "",
        .pyNone, .pyNone, .pyNone⟩ =
      .ok (⟨"2020.02.01", .pyStr "2020", .pyStr "02", .pyStr "01",
            .pyStr "", .pyStr "", .pyStr ""⟩,
           ⟨"2020.02.29", .pyStr "2020", .pyStr "02", .pyStr "29",
            .pyStr "", .pyStr "", .pyStr ""⟩) := by
  refine ⟨?_, rfl, rfl, rfl, rfl⟩
  intro a b c d e g v hok hne
  obtain ⟨y, mo, dayo, t, hy1, hy2, hyear, hmonth, hday, hmb, hdb, htd, hbase, hclock, habs⟩ :=
    (validate_inv hok).resolve_left (fun hcon => hne (by rw [hcon.1]))
  have hgr := get_range_canon v y mo dayo hyear hmonth hday hy1 hy2 hmb hdb
  refine ⟨⟨ymdBase y (some (mo.getD 1)) (some (dayo.getD 1)), .pyStr (formatPad 4 y),
      .pyStr (formatPad 2 (mo.getD 1)), .pyStr (formatPad 2 (dayo.getD 1)),
      .pyStr "", .pyStr "", .pyStr ""⟩,
    ⟨ymdBase y (some (mo.getD 12)) (some (dayo.getD (daysInMonth y (mo.getD 12)))),
      .pyStr (formatPad 4 y), .pyStr (formatPad 2 (mo.getD 12)),
      .pyStr (formatPad 2 (dayo.getD (daysInMonth y (mo.getD 12)))),
      .pyStr "", .pyStr "", .pyStr ""⟩, hgr,
    ?_, ?_, hyear.symm, hyear.symm, ?_, ?_, ?_, ?_, ?_, ?_, ?_⟩
  · simp [FuzzyDate.is_fuzzy, formatPad_ne_empty]
  · simp [FuzzyDate.is_fuzzy, formatPad_ne_empty]
  · cases mo with
    | none =>
      simp only [attrM, Option.elim] at hmonth
      rw [hmonth, if_pos rfl]
      rfl
    | some m =>
      simp only [attrM, Option.elim] at hmonth
      rw [hmonth, if_neg (fun hc => formatPad_ne_empty 2 m (Comp.pyStr.inj hc))]
      rfl
  · cases dayo with
    | none =>
      simp only [attrM, Option.elim] at hday
      rw [hday, if_pos rfl]
      rfl
    | some dv =>
      simp only [attrM, Option.elim] at hday
      rw [hday, if_neg (fun hc => formatPad_ne_empty 2 dv (Comp.pyStr.inj hc))]
      rfl
  · cases mo with
    | none =>
      simp only [attrM, Option.elim] at hmonth
      rw [hmonth, if_pos rfl]
      rfl
    | some m =>
      simp only [attrM, Option.elim] at hmonth
      rw [hmonth, if_neg (fun hc => formatPad_ne_empty 2 m (Comp.pyStr.inj hc))]
      rfl
  · intro hdne
    cases hdo : dayo with
    | none =>
      rw [hdo] at hday
      simp only [attrM, Option.elim] at hday
      exact absurd hday hdne
    | some dv =>
      rw [hdo] at hday
      simp only [attrM, Option.elim] at hday
      exact hday.symm
  · intro yy mm hd hy hm hmm1 hmm2
    have hdoN : dayo = none := by
      cases hdo : dayo with
      | none => rfl
      | some dv =>
        rw [hdo] at hday
        simp only [attrM, Option.elim] at hday
        rw [hday] at hd
        exact absurd (Comp.pyStr.inj hd) (formatPad_ne_empty 2 dv)
    have hyy : y = yy := by
      rw [hyear] at hy
      exact formatPad_inj (Comp.pyStr.inj hy)
    obtain ⟨m, hmoS⟩ : ∃ m, mo = some m := by
      cases hmo : mo with
      | none =>
        rw [hmo] at hmonth
        simp only [attrM, Option.elim] at hmonth
        rw [hmonth] at hm
        exact absurd (Comp.pyStr.inj hm).symm (formatPad_ne_empty 2 mm)
      | some m => exact ⟨m, rfl⟩
    have hmmm : m = mm := by
      rw [hmoS] at hmonth
      simp only [attrM, Option.elim] at hmonth
      rw [hmonth] at hm
      exact formatPad_inj (Comp.pyStr.inj hm)
    rw [hdoN, hmoS, hmmm, hyy]
    rfl
  · intro hd hm
    have hdoN : dayo = none := by
      cases hdo : dayo with
      | none => rfl
      | some dv =>
        rw [hdo] at hday
        simp only [attrM, Option.elim] at hday
        rw [hday] at hd
        exact absurd (Comp.pyStr.inj hd) (formatPad_ne_empty 2 dv)
    have hmoN : mo = none := by
      cases hmo : mo with
      | none => rfl
      | some m =>
        rw [hmo] at hmonth
        simp only [attrM, Option.elim] at hmonth
        rw [hmonth] at hm
        exact absurd (Comp.pyStr.inj hm) (formatPad_ne_empty 2 m)
    rw [hdoN, hmoN]
    simp only [Option.getD, daysInMonth_twelve]
    rfl
  · intro a2 b2 c2 d2 e2 g2 x hokx hbx hmxne hdxne hhx hyx hmeqh hdeqh
    obtain ⟨yx, mox, dayox, tx, hyx1, hyx2, hyearx, hmonthx, hdayx, hmbx, hdbx, htdx,
      hbasex, hclockx, -⟩ :=
      (validate_inv hokx).resolve_left (fun hcon => hbx (by rw [hcon.1]))
    have htxn : tx = none := by
      cases ht : tx with
      | none => rfl
      | some p =>
        obtain ⟨hh, mnn, zz⟩ := p
        obtain ⟨-, -, -, -, -, -, hhour, -, -⟩ := hclockx hh mnn zz ht
        rw [hhour] at hhx
        simp [Comp.isAbsent, formatPad_ne_empty] at hhx
    obtain ⟨mx, hmox⟩ : ∃ mm, mox = some mm := by
      cases hmo2 : mox with
      | none => rw [hmonthx, hmo2] at hmxne; exact absurd (by simp [attrM]) hmxne
      | some mm => exact ⟨mm, rfl⟩
    obtain ⟨dx, hdox⟩ : ∃ dd2, dayox = some dd2 := by
      cases hdo2 : dayox with
      | none => rw [hdayx, hdo2] at hdxne; exact absurd (by simp [attrM]) hdxne
      | some dd2 => exact ⟨dd2, rfl⟩
    obtain ⟨hmx1, hmx2⟩ := hmbx mx hmox
    obtain ⟨hdx1, hdx2⟩ := hdbx dx hdox
    rw [hmox] at hdx2
    simp only [Option.getD] at hdx2
    rw [hyear, hyearx] at hyx
    have hyy : yx = y := formatPad_inj (Comp.pyStr.inj hyx)
    subst hyy
    have hbx2 : x.base = ymdBase yx (some mx) (some dx) := by
      rw [hbasex, hmox, hdox, htxn]
      simp [Option.elim]
    have hmeq2 : ∀ m, mo = some m → mx = m := by
      intro m hm
      have hvm : v.month = .pyStr (formatPad 2 m) := by rw [hmonth, hm]; rfl
      have hxm := hmeqh (by
        rw [hvm]
        intro hc
        exact formatPad_ne_empty 2 m (Comp.pyStr.inj hc))
      rw [hmonthx, hmox, hvm] at hxm
      simp only [attrM, Option.elim] at hxm
      exact formatPad_inj (Comp.pyStr.inj hxm)
    have hdeq2 : ∀ d2, dayo = some d2 → dx = d2 := by
      intro dv hdv
      have hvd : v.day = .pyStr (formatPad 2 dv) := by rw [hday, hdv]; rfl
      have hxd := hdeqh (by
        rw [hvd]
        intro hc
        exact formatPad_ne_empty 2 dv (Comp.pyStr.inj hc))
      rw [hdayx, hdox, hvd] at hxd
      simp only [attrM, Option.elim] at hxd
      exact formatPad_inj (Comp.pyStr.inj hxd)
    have hres := range_bound_aux yx mo dayo hmb hdb mx dx hmx1 hmx2 hdx1 hdx2 hmeq2 hdeq2
    rw [hbx2]
    exact hres

theorem C3_range_expansion_witness :
    ∃ s en, FuzzyDate.get_range ⟨"2021.02.00", .pyStr "2021", .pyStr "02", .pyStr "",
        .pyNone, .pyNone, .pyNone⟩ = .ok (s, en) ∧
      s.is_fuzzy = false ∧ en.is_fuzzy = false := by
  obtain ⟨s, en, h1, h2, h3, -⟩ := C3_range_expansion.1 (.pyInt 2021) (.pyInt 2) .pyNone
    .pyNone .pyNone .pyNone
    ⟨"2021.02.00", .pyStr "2021", .pyStr "02", .pyStr "", .pyNone, .pyNone, .pyNone⟩
    (by rfl) (by decide)
  exact ⟨s, en, h1, h2, h3⟩

/-- Component equality up to the two interchangeable absence markers (None
and the empty string). -/
def eqAbs (a b : Comp) : Prop := (a.isAbsent = true ∧ b.isAbsent = true) ∨ a = b

/-- C1 counterexample: three failures of the literal round-trip.  The
no-argument value encodes to "" which decode rejects; a value built from
keyword arguments stores "" in the absent hour/minute/tz attributes while
decoding its text stores None, so the components differ; and a value
accepted with a timezone carrying trailing text after Area/Location (the
prefix-matching TZ_PATTERN) encodes to a string that decode rejects
outright. -/
theorem C1_counterexample :
    (validate (.pyStr "") (.pyStr "") (.pyStr "") (.pyStr "") (.pyStr "") (.pyStr "")
        = .ok emptyFD ∧
      fromText emptyFD.base = .error .malformedInput) ∧
    (fromKwargs (.pyInt 2020) .pyNone .pyNone .pyNone .pyNone .pyNone =
        .ok ⟨"2020.00.00", .pyStr "2020", .pyStr "", .pyStr "",
             .pyStr "", .pyStr "", .pyStr ""⟩ ∧
      fromText "2020.00.00" =
        .ok ⟨"2020.00.00", .pyStr "2020", .pyStr "", .pyStr "",
             .pyNone, .pyNone, .pyNone⟩ ∧
      (Comp.pyNone : Comp) ≠ .pyStr "") ∧
    (validate (.pyInt 2020) (.pyInt 5) (.pyInt 17) (.pyInt 3) (.pyInt 7)
        (.pyStr "America/Chicago/Extra") =
      .ok ⟨"2020.05.17 03:07 America/Chicago/Extra", .pyStr "2020", .pyStr "05",
           .pyStr "17", .pyStr "03", .pyStr "07", .pyStr "America/Chicago/Extra"⟩ ∧
      fromText "2020.05.17 03:07 America/Chicago/Extra" = .error .malformedInput) :=
  ⟨⟨rfl, rfl⟩, ⟨rfl, rfl, by decide⟩, ⟨rfl, rfl⟩⟩

/-- C1 (amended): for a non-empty validly constructed value whose timezone,
when present, has the exact Area/Location shape, decoding the canonical
string succeeds and returns a value with the same canonical string, the
same year, month and day attributes, and hour, minute and timezone
attributes equal up to the absence marker (decode stores None where the
keyword path stores ""). -/
theorem C1_round_trip :
    ∀ (a b c d e g : Comp) (v : FuzzyDate),
      validate a b c d e g = .ok v → v.base ≠ "" →
      (∀ z, v.tz = .pyStr z → z ≠ "" → tzStrict z = true) →
      ∃ w, fromText v.base = .ok w ∧ w.base = v.base ∧
        w.year = v.year ∧ w.month = v.month ∧ w.day = v.day ∧
        eqAbs w.hour v.hour ∧ eqAbs w.minute v.minute ∧ eqAbs w.tz v.tz := by
  intro a b c d e g v hok hne htzh
  obtain ⟨y, mo, dayo, t, hy1, hy2, hyear, hmonth, hday, hmb, hdb, htd, hbase, hclock, habs⟩ :=
    (validate_inv hok).resolve_left (fun hcon => hne (by rw [hcon.1]))
  have hoc : ∀ s : String, optComp (some s) = Comp.pyStr s := fun s => rfl
  have hocn : optComp none = Comp.pyNone := rfl
  have hm1' : 1 ≤ mo.getD 1 ∧ mo.getD 1 ≤ 12 := by
    cases mo with
    | none => simp only [Option.getD]; omega
    | some m => simp only [Option.getD]; exact hmb m rfl
  have hd1' : 1 ≤ dayo.getD 1 ∧ dayo.getD 1 ≤ daysInMonth y (mo.getD 1) := by
    cases dayo with
    | none => simp only [Option.getD]; exact ⟨le_refl 1, daysInMonth_pos y _⟩
    | some dd => simp only [Option.getD]; exact hdb dd rfl
  have hvalid : isValidDate y (mo.getD 1) (dayo.getD 1) = true :=
    isValidDate_true (by omega) hy2 hm1'.1 hm1'.2 hd1'.1 hd1'.2
  have hmT : (Comp.pyStr (fmtM mo)).truthy = true := by
    cases mo with
    | none => decide
    | some m => exact truthy_fmt 2 m
  have hmc : coerceMD (.pyStr (fmtM mo)) = some (fmtM mo, mo.getD 1) :=
    coerceMD_canon_fmt mo (fun m hm => by have := (hmb m hm).1; omega)
  have hdc : coerceMD (.pyStr (fmtM dayo)) = some (fmtM dayo, dayo.getD 1) :=
    coerceMD_canon_fmt dayo (fun dd hd2 => by have := (hdb dd hd2).1; omega)
  have hdm : ((Comp.pyStr (fmtM dayo)).truthy && !(Comp.pyStr (fmtM mo)).truthy) = false := by
    rw [hmT]
    simp
  have hmo99 : ∀ m, mo = some m → 0 ≤ m ∧ m ≤ 99 := fun m hm =>
    ⟨by have := (hmb m hm).1; omega, by have := (hmb m hm).2; omega⟩
  have hdo99 : ∀ dd, dayo = some dd → 0 ≤ dd ∧ dd ≤ 99 := fun dd hd2 =>
    ⟨by have := (hdb dd hd2).1; omega,
     by have := (hdb dd hd2).2; have h31 := daysInMonth_le31 y (mo.getD 1); omega⟩
  cases ht : t with
  | none =>
    have hpd := parseDate_canon y mo dayo none hy1 hy2 hmo99 hdo99
      (fun h mn z hc => by cases hc)
    rw [ht] at hbase
    obtain ⟨hha, hmna, htza⟩ := habs ht
    unfold fromText
    rw [hbase, hpd]
    simp only [Option.map, hoc, hocn]
    have hval := validate_ok_noTime (.pyStr (formatPad 4 y)) (.pyStr (fmtM mo))
      (.pyStr (fmtM dayo)) .pyNone .pyNone .pyNone y mo dayo
      (truthy_fmt 4 y) (pyIntStr_formatPad 4 y) hmc hdc hdm hy1 hy2 hvalid rfl rfl rfl
    rw [hval]
    refine ⟨_, rfl, ?_, hyear.symm, hmonth.symm, hday.symm, ?_, ?_, ?_⟩
    · simp
    · exact Or.inl ⟨rfl, hha⟩
    · exact Or.inl ⟨rfl, hmna⟩
    · exact Or.inl ⟨rfl, htza⟩
  | some p =>
    obtain ⟨h, mn, z⟩ := p
    obtain ⟨hh1, hh2, hmn1, hmn2, htzm, hzne, hhour, hminute, htz⟩ := hclock h mn z ht
    have htzS : tzStrict z = true := htzh z htz hzne
    have hpd := parseDate_canon y mo dayo (some (h, mn, z)) hy1 hy2 hmo99 hdo99
      (fun h2 mn2 z2 hc => by
        have h1 := (Option.some.inj hc).symm
        rw [show h2 = h from congrArg Prod.fst h1,
          show mn2 = mn from congrArg (fun q => q.2.1) h1,
          show z2 = z from congrArg (fun q => q.2.2) h1]
        exact ⟨by omega, by omega, by omega, by omega, htzS⟩)
    rw [ht] at hbase
    unfold fromText
    rw [hbase, hpd]
    simp only [Option.map, hoc, hocn]
    have hval := validate_ok_time (.pyStr (formatPad 4 y)) (.pyStr (fmtM mo))
      (.pyStr (fmtM dayo)) (.pyStr (formatPad 2 h)) (.pyStr (formatPad 2 mn)) z y mo dayo h mn
      (truthy_fmt 4 y) (pyIntStr_formatPad 4 y) hmc hdc hdm hy1 hy2 hvalid
      (htd (by rw [ht]; rfl))
      (by simp [Comp.isAbsent, formatPad_ne_empty]) (pyIntStr_formatPad 2 h)
      (by simp [Comp.isAbsent, formatPad_ne_empty]) (pyIntStr_formatPad 2 mn)
      hh1 hh2 hmn1 hmn2 hzne htzm
    rw [hval]
    refine ⟨_, rfl, ?_, hyear.symm, hmonth.symm, hday.symm, Or.inr hhour.symm,
      Or.inr hminute.symm, Or.inr htz.symm⟩
    rfl

theorem C1_round_trip_witness :
    ∃ w, fromText "2020.05.17 03:07 America/Chicago" = .ok w ∧
      w.base = "2020.05.17 03:07 America/Chicago" ∧
      w.year = Comp.pyStr "2020" := by
  obtain ⟨w, h1, h2, h3, -⟩ := C1_round_trip (.pyInt 2020) (.pyInt 5) (.pyInt 17) (.pyInt 3)
    (.pyInt 7) (.pyStr "America/Chicago")
    ⟨"2020.05.17 03:07 America/Chicago", .pyStr "2020", .pyStr "05", .pyStr "17",
     .pyStr "03", .pyStr "07", .pyStr "America/Chicago"⟩
    (by rfl) (by decide) (by intro z hz hzne; rw [← Comp.pyStr.inj hz]; decide)
  exact ⟨w, h1, h2, h3⟩
